import Mathlib

/-!
Verification of the tellor pallet core (stake ledger, report store, dispute
engine, voting subsystem, reward/tip settlement) as a shallow embedding.

The repository's visible source is the benchmarking harness
(`src/benchmarking.rs`), which exercises the pallet's extrinsics; the
extrinsic bodies themselves are not part of the visible sources. Following
the specification (`spec.md`), the operations are therefore modelled from
the spec's words, while the `dispute_id` computation — present verbatim in
`src/benchmarking.rs` — is embedded from the source (Keccak-256 over the
ethabi encoding of the parachain id, query id and timestamp).

Conventions: amounts held by the ledger are `Nat` (the ledger never goes
negative); stake-account amounts are `Int` so that the specified invariant
`0 ≤ staked ∧ locked ≤ staked` is a real theorem; timestamps are seconds
as `Nat`. Keyed storage maps are association lists.
-/

namespace Tellor

/-! ## Association-list helpers (keyed storage maps) -/

def alookup {α β : Type} [DecidableEq α] : List (α × β) → α → Option β
  | [], _ => none
  | (k, v) :: t, a => if k = a then some v else alookup t a

def aset {α β : Type} [DecidableEq α] : List (α × β) → α → β → List (α × β)
  | [], a, b => [(a, b)]
  | (k, v) :: t, a, b => if k = a then (a, b) :: t else (k, v) :: aset t a b

def countKey {α β : Type} [DecidableEq α] : List (α × β) → α → Nat
  | [], _ => 0
  | p :: t, a => (if p.1 = a then 1 else 0) + countKey t a

/-! ## Keccak-256

The source computes identifiers with `sp_runtime::traits::Keccak256` over
`ethabi::encode` output. Keccak-256 (the pre-SHA3 padding variant used by
Ethereum and by `sp_runtime`) is implemented here concretely: rate 136
bytes, multi-rate padding `0x01 … 0x80`, 24 rounds of Keccak-f[1600].
Lanes are 64-bit words carried as `Nat` reduced mod `2 ^ 64`. -/

def w64 : Nat := 2 ^ 64

def rotl64 (x n : Nat) : Nat :=
  ((x <<< n) ||| (x >>> (64 - n))) % w64

def lane (s : List Nat) (x y : Nat) : Nat :=
  s.getD (x + 5 * y) 0

/-- One step of the 8-bit LFSR (polynomial x^8 + x^6 + x^5 + x^4 + 1)
that generates the Keccak round constants. -/
def lfsrNext (r : Nat) : Nat :=
  if r &&& 0x80 ≠ 0 then ((r <<< 1) ^^^ 0x71) &&& 0xFF else (r <<< 1) &&& 0xFF

def lfsrState : Nat → Nat
  | 0 => 1
  | n + 1 => lfsrNext (lfsrState n)

/-- Keccak round constants for the iota step: round `i` sets bit
`2 ^ j - 1` to the LFSR output bit at step `7 * i + j`. -/
def roundConstants : List Nat :=
  (List.range 24).map (fun i =>
    (List.range 7).foldl (fun acc j => acc ||| ((lfsrState (7 * i + j) &&& 1) <<< (2 ^ j - 1))) 0)

/-- The coordinate walk of the rho/pi steps: start at (1, 0) and map
(x, y) to (y, (2 x + 3 y) mod 5). -/
def rhoWalk : Nat → Nat × Nat
  | 0 => (1, 0)
  | t + 1 =>
    let (x, y) := rhoWalk t
    (y, (2 * x + 3 * y) % 5)

/-- Keccak rotation offsets, indexed by `x + 5 * y`: the lane visited at
step `t` of the walk rotates by the triangular number `(t+1)(t+2)/2`
reduced mod 64; the origin lane does not rotate. -/
def rhoOffsets : List Nat :=
  (List.range 25).map (fun i =>
    match (List.range 24).findSome? (fun t =>
      let (x, y) := rhoWalk t
      if x + 5 * y = i then some ((t + 1) * (t + 2) / 2 % 64) else none) with
    | some r => r
    | none => 0)

def thetaStep (s : List Nat) : List Nat :=
  let c := (List.range 5).map (fun x =>
    (lane s x 0) ^^^ (lane s x 1) ^^^ (lane s x 2) ^^^ (lane s x 3) ^^^ (lane s x 4))
  let d := (List.range 5).map (fun x =>
    (c.getD ((x + 4) % 5) 0) ^^^ rotl64 (c.getD ((x + 1) % 5) 0) 1)
  (List.range 25).map (fun i => (s.getD i 0) ^^^ (d.getD (i % 5) 0))

def rhoPiStep (s : List Nat) : List Nat :=
  (List.range 25).map (fun i =>
    let x := i % 5
    let y := i / 5
    -- B[x, y] = rotl(A[x + 3 y, x], rho[x + 3 y, x])
    let sx := (x + 3 * y) % 5
    let sy := x
    rotl64 (lane s sx sy) (rhoOffsets.getD (sx + 5 * sy) 0))

def chiStep (s : List Nat) : List Nat :=
  (List.range 25).map (fun i =>
    let x := i % 5
    let y := i / 5
    (lane s x y) ^^^ (((w64 - 1) - lane s ((x + 1) % 5) y) &&& lane s ((x + 2) % 5) y))

def iotaStep (rc : Nat) (s : List Nat) : List Nat :=
  match s with
  | [] => []
  | a :: t => (a ^^^ rc) :: t

def keccakF (s : List Nat) : List Nat :=
  roundConstants.foldl (fun st rc => iotaStep rc (chiStep (rhoPiStep (thetaStep st)))) s

/-- Multi-rate padding to a whole number of 136-byte blocks, ending `0x80`
and starting `0x01` (`0x81` when only one padding byte fits). -/
def keccakPad (msg : List Nat) : List Nat :=
  let padLen := 136 - msg.length % 136
  if padLen = 1 then msg ++ [0x81]
  else msg ++ 0x01 :: List.replicate (padLen - 2) 0 ++ [0x80]

def bytesToLane (bytes : List Nat) : Nat :=
  bytes.foldr (fun b acc => acc * 256 + b) 0

def laneToBytes (n : Nat) : List Nat :=
  (List.range 8).map (fun i => n / 2 ^ (8 * i) % 256)

/-- Absorbs one 136-byte block into the first 17 lanes of the state. -/
def absorbBlock (st : List Nat) (block : List Nat) : List Nat :=
  let upd := (List.range 25).map (fun i =>
    if i < 17 then (st.getD i 0) ^^^ bytesToLane ((block.drop (8 * i)).take 8)
    else st.getD i 0)
  keccakF upd

def toBlocksAux : Nat → List Nat → List (List Nat)
  | 0, _ => []
  | _ + 1, [] => []
  | fuel + 1, l => l.take 136 :: toBlocksAux fuel (l.drop 136)

def toBlocks (l : List Nat) : List (List Nat) :=
  toBlocksAux l.length l

/-- Keccak-256 of a byte sequence: absorb all padded blocks into the
all-zero state, then squeeze the first 32 bytes. -/
def keccak256 (msg : List Nat) : List Nat :=
  let final := (toBlocks (keccakPad msg)).foldl absorbBlock (List.replicate 25 0)
  ((List.range 4).map (fun i => laneToBytes (final.getD i 0))).flatten

/-! ## Ethabi encoding and the dispute identifier

Embedded from `src/benchmarking.rs`: `dispute_id` ABI-encodes
`Token::Uint(para_id)`, `Token::FixedBytes(query_id)` and
`Token::Uint(timestamp)` and hashes the result with Keccak-256. The three
tokens are static, so `ethabi::encode` is the concatenation of one 32-byte
word per token: unsigned integers are big-endian left-padded with zeros,
and a 32-byte fixed-bytes value is written as-is. -/

def natToBytesBE (width n : Nat) : List Nat :=
  (List.range width).map (fun i => n / 2 ^ (8 * (width - 1 - i)) % 256)

def bytesToNat (bytes : List Nat) : Nat :=
  bytes.foldl (fun acc b => acc * 256 + b) 0

/-- Encoding of `Token::Uint` as one 32-byte big-endian word. -/
def encodeUint (n : Nat) : List Nat :=
  natToBytesBE 32 n

/-- Encoding of a 32-byte `Token::FixedBytes`: the query id is a 32-byte
hash, carried here as its numeric value and written big-endian. -/
def encodeFixedBytes32 (n : Nat) : List Nat :=
  natToBytesBE 32 n

/-- Embedded from the source: dispute id bytes for a (parachain id,
query id, timestamp) triple. -/
def disputeIdBytes (paraId queryId timestamp : Nat) : List Nat :=
  keccak256 (encodeUint paraId ++ encodeFixedBytes32 queryId ++ encodeUint timestamp)

/-! ## Data model

Modelled from the spec: the pallet's extrinsic bodies are not among the
visible sources (only the benchmarking harness is), so the four state
machines of §2–§4 — stake ledger, report store, dispute engine, voting,
reward/tip settlement — are modelled from the specification's words.
Disputes are keyed by the deterministic (query id, timestamp) pair (the
identifier of §2 is derived injectively from the network id, query id and
timestamp; the network id is a single constant of the state). -/

abbrev AccountId := Nat

abbrev Timestamp := Nat

abbrev QueryId := Nat

abbrev DisputeKey := QueryId × Timestamp

def HOURS : Nat := 3600

def DAYS : Nat := 24 * HOURS

def WEEKS : Nat := 7 * DAYS

/-- Contest window for disputes: 12 hours (§4.3). -/
def disputePeriod : Nat := 12 * HOURS

/-- Mandatory withdrawal lock: 7 days (§4.1). -/
def withdrawalLockPeriod : Nat := WEEKS

inductive Origin
  | signed (who : AccountId)
  | stakingContract
  | governanceContract
  | root
deriving DecidableEq

inductive VoteResult
  | Passed
  | Failed
  | Invalid
deriving DecidableEq

inductive DisputeStatus
  | Opened
  | Tallied (outcome : VoteResult) (tallyTime : Timestamp)
  | Executed (outcome : VoteResult)
deriving DecidableEq

inductive Error
  | Unauthorized
  | ReportNotFound
  | DisputeWindowExpired
  | DisputeAlreadyOpen
  | DisputeRoundClosed
  | DisputeNotOpen
  | DisputeNotTallied
  | InsufficientBalance
  | NotStaked
  | ReportingLocked
  | SubmissionTooFrequent
  | QueryDataMismatch
  | InsufficientStake
  | WithdrawalLockNotExpired
  | NoPendingWithdrawal
  | FeedAlreadyExists
  | FeedNotFound
  | AlreadyClaimed
  | TimestampOutsideWindow
  | ReportDisputed
  | NotEligible
  | ZeroAmount
deriving DecidableEq

inductive Event
  | RegistrationSent (paraId : Nat) (contractAddr : Nat)
  | NewStakerReported (staker : AccountId) (amount : Nat) (addr : Nat)
  | StakeWithdrawRequestConfirmationSent (paraId : Nat) (contractAddr : Nat)
  | StakeWithdrawnReported (staker : AccountId)
  | TipAdded (queryId : QueryId) (amount : Nat) (tipper : AccountId)
  | NewDisputeSent (paraId : Nat) (contractAddr : Nat)
  | Voted (key : DisputeKey) (supports : Option Bool) (voter : AccountId)
  | SlashReported (reporter : AccountId) (amount : Int)
  | VoteRelayed (key : DisputeKey)
deriving DecidableEq

/-- Stake-ledger account (§3 StakeAccount). Amounts are `Int` so that the
invariant `0 ≤ staked ∧ 0 ≤ locked ∧ locked ≤ staked` is a theorem, not a
typing artifact. -/
structure StakeAccount where
  staked : Int
  locked : Int
  requestTime : Option Timestamp
  addr : Nat
deriving DecidableEq

/-- Report-store entry (§3 Report). `voided` is the provisional/permanent
invalidation flag set while a dispute is open or after it passed. -/
structure Report where
  time : Timestamp
  value : List Nat
  reporter : AccountId
  idx : Nat
  voided : Bool
deriving DecidableEq

/-- Dispute record (§3 Dispute): round number starting at 1, escrowed fee
for the current round, per-round initiators with their escrowed fees, the
disputed reporter, and the round status. -/
structure Dispute where
  round : Nat
  fee : Nat
  status : DisputeStatus
  initiators : List (AccountId × Nat)
  reporter : AccountId
deriving DecidableEq

/-- Aggregate vote counters for one dispute (§4.4). -/
structure Tally where
  doesSupport : Nat
  against : Nat
  invalid : Nat
deriving DecidableEq

/-- Defining parameters of a recurring feed (§3 Feed); the feed id is the
hash of exactly these parameters, so the parameter tuple itself is the key. -/
structure FeedParams where
  queryId : QueryId
  reward : Nat
  startTime : Timestamp
  interval : Nat
  window : Nat
  priceThreshold : Nat
  rewardIncreasePerSecond : Nat
deriving DecidableEq

/-- One contribution to a query's one-off tip pool (§3 Tip). -/
structure TipEntry where
  amount : Nat
  time : Timestamp
deriving DecidableEq

/-- Global state of the core: configuration constants, the ledger balances
collaborator, and the four state machines' keyed maps. -/
structure State where
  now : Timestamp
  paraId : Nat
  governanceAddr : Nat
  stakingAddr : Nat
  baseDisputeFee : Nat
  maxDisputeFee : Nat
  stakeAmount : Nat
  stakeUsdTarget : Nat
  reportingLock : Nat
  stakingPriceQueryId : QueryId
  localPriceQueryId : QueryId
  balances : List (AccountId × Nat)
  stakers : List (AccountId × StakeAccount)
  reports : List (QueryId × List Report)
  disputes : List (DisputeKey × Dispute)
  votes : List ((DisputeKey × AccountId) × Option Bool)
  tallies : List (DisputeKey × Tally)
  pendingVoteNotices : List DisputeKey
  feeds : List (FeedParams × Nat)
  tipsPool : List (QueryId × List TipEntry)
  claimed : List (DisputeKey × Bool)
  slashPool : Nat
deriving DecidableEq

/-! ## State accessors and primitive updates -/

def balanceOf (s : State) (a : AccountId) : Nat :=
  (alookup s.balances a).getD 0

/-- Ledger debit (§6): fails (`none`) rather than letting a balance go
negative; a failure aborts the calling operation. -/
def debit (s : State) (a : AccountId) (amt : Nat) : Option State :=
  if amt ≤ balanceOf s a then
    some { s with balances := aset s.balances a (balanceOf s a - amt) }
  else none

def credit (s : State) (a : AccountId) (amt : Nat) : State :=
  { s with balances := aset s.balances a (balanceOf s a + amt) }

def reportsOf (s : State) (q : QueryId) : List Report :=
  (alookup s.reports q).getD []

def reportAt (s : State) (q : QueryId) (t : Timestamp) : Option Report :=
  (reportsOf s q).find? (fun r => r.time = t)

def setVoided (s : State) (q : QueryId) (t : Timestamp) (b : Bool) : State :=
  let updated := (reportsOf s q).map (fun r => if r.time = t then { r with voided := b } else r)
  { s with reports := aset s.reports q updated }

def disputeAt (s : State) (k : DisputeKey) : Option Dispute :=
  alookup s.disputes k

def statusAt (s : State) (k : DisputeKey) : Option DisputeStatus :=
  (disputeAt s k).map Dispute.status

def setStaker (s : State) (a : AccountId) (acc : StakeAccount) : State :=
  { s with stakers := aset s.stakers a acc }

def claimedFlag (s : State) (q : QueryId) (t : Timestamp) : Bool :=
  (alookup s.claimed (q, t)).getD false

def tallyOf (s : State) (k : DisputeKey) : Tally :=
  (alookup s.tallies k).getD ⟨0, 0, 0⟩

def tallyInc (t : Tally) : Option Bool → Tally
  | some true => { t with doesSupport := t.doesSupport + 1 }
  | some false => { t with against := t.against + 1 }
  | none => { t with invalid := t.invalid + 1 }

def tallyDec (t : Tally) : Option Bool → Tally
  | some true => { t with doesSupport := t.doesSupport - 1 }
  | some false => { t with against := t.against - 1 }
  | none => { t with invalid := t.invalid - 1 }

def tallyDecOpt (t : Tally) : Option (Option Bool) → Tally
  | none => t
  | some c => tallyDec t c

/-- Query ids are the Keccak-256 hash of the query data (§3). -/
def queryIdOf (queryData : List Nat) : QueryId :=
  bytesToNat (keccak256 queryData)

/-! ## Operations

Modelled from the spec (§4): each operation is a total function from the
pre-state to either an error or a post-state together with the emitted
events; a returned error commits nothing (§5 all-or-nothing). -/

abbrev OpResult := Except Error (State × List Event)

/-- Registration (§6): root-only, sends the registration notification. -/
def registerRun (s : State) (origin : Origin) : OpResult :=
  if origin = .root then .ok (s, [.RegistrationSent s.paraId s.stakingAddr])
  else .error .Unauthorized

/-- `deposit_stake` (§4.1): only the trusted upstream staking notifier may
report a deposit; increases the staked amount and binds the external
address. -/
def reportStakeDepositedRun (s : State) (origin : Origin) (reporter : AccountId)
    (amount : Nat) (addr : Nat) : OpResult :=
  if origin = .stakingContract then
    let acc := (alookup s.stakers reporter).getD ⟨0, 0, none, addr⟩
    let acc' := { acc with staked := acc.staked + (amount : Int), addr := addr }
    .ok (setStaker s reporter acc', [.NewStakerReported reporter amount addr])
  else .error .Unauthorized

/-- `request_withdrawal` (§4.1): fails with `InsufficientStake` when the
amount exceeds the free stake; records the request timestamp, moves the
amount into the locked state and notifies the settlement layer. -/
def reportStakingWithdrawRequestRun (s : State) (origin : Origin) (reporter : AccountId)
    (amount : Nat) : OpResult :=
  if origin = .stakingContract then
    match alookup s.stakers reporter with
    | none => .error .InsufficientStake
    | some acc =>
      if (amount : Int) ≤ acc.staked - acc.locked then
        let acc' := { acc with locked := acc.locked + (amount : Int), requestTime := some s.now }
        .ok (setStaker s reporter acc',
          [.StakeWithdrawRequestConfirmationSent s.paraId s.stakingAddr])
      else .error .InsufficientStake
  else .error .Unauthorized

/-- `confirm_withdrawal` (§4.1): fails with `NoPendingWithdrawal` without a
request, with `WithdrawalLockNotExpired` before the 7-day lock has passed,
and otherwise reduces the staked and locked amounts together. -/
def reportStakeWithdrawnRun (s : State) (origin : Origin) (reporter : AccountId)
    (amount : Nat) : OpResult :=
  if origin = .stakingContract then
    match alookup s.stakers reporter with
    | none => .error .NoPendingWithdrawal
    | some acc =>
      match acc.requestTime with
      | none => .error .NoPendingWithdrawal
      | some t0 =>
        if s.now < t0 + withdrawalLockPeriod then .error .WithdrawalLockNotExpired
        else if (amount : Int) ≤ acc.locked then
          let locked' := acc.locked - (amount : Int)
          let acc' := { acc with staked := acc.staked - (amount : Int), locked := locked',
                                 requestTime := if locked' = 0 then none else some t0 }
          .ok (setStaker s reporter acc', [.StakeWithdrawnReported reporter])
        else .error .InsufficientStake
  else .error .Unauthorized

/-- Clamped slashing of one account (§4.1): reduces the staked amount by
the minimum of the requested amount and the available (free) stake, so the
staked amount never drops below the locked amount nor below zero. Returns
the updated account and the actually slashed amount. -/
def slashStakeAccount (acc : StakeAccount) (amount : Int) : StakeAccount × Int :=
  let actual := min amount (acc.staked - acc.locked)
  ({ acc with staked := acc.staked - actual }, actual)

/-- `slash` / `report_slash` (§4.1, §4.3): governance-only; clamps to the
available stake, routes the slashed funds to the treasury destination and
emits the slash event even when the clamped amount differs. -/
def reportSlashRun (s : State) (origin : Origin) (reporter : AccountId)
    (amount : Nat) : OpResult :=
  if origin = .governanceContract then
    match alookup s.stakers reporter with
    | none => .error .NotStaked
    | some acc =>
      let (acc', actual) := slashStakeAccount acc (amount : Int)
      let s' := setStaker s reporter acc'
      .ok ({ s' with slashPool := s'.slashPool + actual.toNat },
        [.SlashReported reporter actual])
  else .error .Unauthorized

/-- Latest report of a query. -/
def latestReport (s : State) (q : QueryId) : Option Report :=
  (reportsOf s q).getLast?

/-- `rebase_stake_amount` (§4.1): recomputes the minimum-stake amount in
local-token terms from the two price reports the oracle itself holds;
tolerates missing or stale prices by skipping the rebase rather than
failing. Modelled from the spec: the exact numeric formula is left
configurable by §9, modelled here as the USD target converted through the
two prices. -/
def updateStakeAmountRun (s : State) : OpResult :=
  match latestReport s s.stakingPriceQueryId, latestReport s s.localPriceQueryId with
  | some r1, some r2 =>
    if s.now - r1.time ≤ disputePeriod ∧ s.now - r2.time ≤ disputePeriod then
      let p1 := bytesToNat r1.value
      let p2 := bytesToNat r2.value
      if p1 = 0 then .ok (s, [])
      else .ok ({ s with stakeAmount := s.stakeUsdTarget * p2 / p1 }, [])
    else .ok (s, [])
  | _, _ => .ok (s, [])

/-- `submit_value` (§4.2): requires a free stake of at least the minimum,
no pending withdrawal, the minimum reporting interval since the query's
last report, and query data hashing to the query id; appends the new
timestamped entry. -/
def submitValueRun (s : State) (origin : Origin) (q : QueryId) (value : List Nat)
    (queryData : List Nat) : OpResult :=
  match origin with
  | .signed who =>
    match alookup s.stakers who with
    | none => .error .NotStaked
    | some acc =>
      if acc.staked - acc.locked < (s.stakeAmount : Int) then .error .NotStaked
      else if acc.requestTime ≠ none then .error .ReportingLocked
      else if queryIdOf queryData ≠ q then .error .QueryDataMismatch
      else
        match latestReport s q with
        | some last =>
          if s.now - last.time < s.reportingLock then .error .SubmissionTooFrequent
          else
            let rep : Report := ⟨s.now, value, who, (reportsOf s q).length, false⟩
            .ok ({ s with reports := aset s.reports q (reportsOf s q ++ [rep]) }, [])
        | none =>
          let rep : Report := ⟨s.now, value, who, 0, false⟩
          .ok ({ s with reports := aset s.reports q [rep] }, [])
  | _ => .error .Unauthorized

/-- `begin_dispute` (§4.3): requires an existing report within the 12-hour
contest window (from submission for the first round, from the previous
round's tally for a re-dispute); a new round is possible only when the
prior round was tallied against the reporter; escrows the round fee (base
fee for round 1, doubled per round and capped at the configured maximum)
from the initiator; provisionally voids the report and notifies the
governance collaborator. -/
def beginDisputeRun (s : State) (origin : Origin) (q : QueryId) (t : Timestamp) : OpResult :=
  match origin with
  | .signed who =>
    match reportAt s q t with
    | none => .error .ReportNotFound
    | some rep =>
      match disputeAt s (q, t) with
      | none =>
        if disputePeriod < s.now - t then .error .DisputeWindowExpired
        else
          let fee := s.baseDisputeFee
          match debit s who fee with
          | none => .error .InsufficientBalance
          | some s1 =>
            let d : Dispute := ⟨1, fee, .Opened, [(who, fee)], rep.reporter⟩
            let s2 := setVoided { s1 with disputes := aset s1.disputes (q, t) d } q t true
            .ok (s2, [.NewDisputeSent s.paraId s.governanceAddr])
      | some d =>
        match d.status with
        | .Opened => .error .DisputeAlreadyOpen
        | .Executed _ => .error .DisputeRoundClosed
        | .Tallied outcome tallyTime =>
          if outcome = .Passed then
            if disputePeriod < s.now - tallyTime then .error .DisputeWindowExpired
            else
              let fee := min (2 * d.fee) s.maxDisputeFee
              match debit s who fee with
              | none => .error .InsufficientBalance
              | some s1 =>
                let d' : Dispute :=
                  ⟨d.round + 1, fee, .Opened, (who, fee) :: d.initiators, d.reporter⟩
                let s2 := setVoided { s1 with disputes := aset s1.disputes (q, t) d' } q t true
                .ok (s2, [.NewDisputeSent s.paraId s.governanceAddr])
          else .error .DisputeRoundClosed
  | _ => .error .Unauthorized

/-- `report_vote_tallied` (§4.3): governance-only; records the outcome of
the open round and transitions it to `Tallied`. -/
def reportVoteTalliedRun (s : State) (origin : Origin) (k : DisputeKey)
    (result : VoteResult) : OpResult :=
  if origin = .governanceContract then
    match disputeAt s k with
    | none => .error .DisputeNotOpen
    | some d =>
      match d.status with
      | .Opened =>
        let d' := { d with status := .Tallied result s.now }
        .ok ({ s with disputes := aset s.disputes k d' }, [])
      | _ => .error .DisputeNotOpen
  else .error .Unauthorized

/-- `report_vote_executed` (§4.3): governance-only; irreversible effects of
a tallied round — on Passed the report stays voided, the reporter is
slashed and the fees are refunded to the initiators; on Failed the fees go
to the reporter and the report stands again; on Invalid the fees return to
the initiators with no slash. Guarded so a dispute cannot execute twice. -/
def reportVoteExecutedRun (s : State) (origin : Origin) (k : DisputeKey) : OpResult :=
  if origin = .governanceContract then
    match disputeAt s k with
    | none => .error .DisputeNotTallied
    | some d =>
      match d.status with
      | .Tallied outcome _ =>
        let sExec := { s with disputes := aset s.disputes k { d with status := .Executed outcome } }
        match outcome with
        | .Passed =>
          let refunded := d.initiators.foldl (fun st p => credit st p.1 p.2) sExec
          match alookup refunded.stakers d.reporter with
          | none => .ok (refunded, [])
          | some acc =>
            let (acc', actual) := slashStakeAccount acc (refunded.stakeAmount : Int)
            let s' := setStaker refunded d.reporter acc'
            .ok ({ s' with slashPool := s'.slashPool + actual.toNat },
              [.SlashReported d.reporter actual])
        | .Failed =>
          let total := (d.initiators.map Prod.snd).sum
          .ok (setVoided (credit sExec d.reporter total) k.1 k.2 false, [])
        | .Invalid =>
          let refunded := d.initiators.foldl (fun st p => credit st p.1 p.2) sExec
          .ok (setVoided refunded k.1 k.2 false, [])
      | _ => .error .DisputeNotTallied
  else .error .Unauthorized

/-- Post-state of a successful vote: the (dispute, voter) entry is
upserted, the aggregate counters are adjusted by removing the prior choice
and adding the new one, and the dispute is queued for relay. -/
def voteResultState (s : State) (voter : AccountId) (k : DisputeKey)
    (choice : Option Bool) : State :=
  { s with votes := aset s.votes (k, voter) choice,
           tallies := aset s.tallies k (tallyInc (tallyDecOpt (tallyOf s k) (alookup s.votes (k, voter))) choice),
           pendingVoteNotices := if k ∈ s.pendingVoteNotices then s.pendingVoteNotices else s.pendingVoteNotices ++ [k] }

/-- Core of `vote` (§4.4): requires an open round; upserts the (dispute,
voter) tally entry, replacing any prior vote and adjusting the aggregate
counters so the voter is never double counted; emits the `Voted` event. No
stake or balance is required of the voter. -/
def voteRun (s : State) (voter : AccountId) (k : DisputeKey)
    (choice : Option Bool) : OpResult :=
  match statusAt s k with
  | some .Opened => .ok (voteResultState s voter k choice, [.Voted k choice voter])
  | _ => .error .DisputeNotOpen

def voteOpRun (s : State) (origin : Origin) (k : DisputeKey) (choice : Option Bool) : OpResult :=
  match origin with
  | .signed voter => voteRun s voter k choice
  | _ => .error .Unauthorized

/-- Core of `vote_on_multiple_disputes` (§4.4): applies `vote` atomically
per entry, best-effort — a failed entry is skipped and entries already
applied are not rolled back. -/
def voteManyGo (voter : AccountId) : State → List (DisputeKey × Option Bool) → State × List Event
  | s, [] => (s, [])
  | s, e :: rest =>
    match voteRun s voter e.1 e.2 with
    | .ok (s1, ev1) =>
      let (s2, ev2) := voteManyGo voter s1 rest
      (s2, ev1 ++ ev2)
    | .error _ => voteManyGo voter s rest

def voteOnMultipleDisputesRun (s : State) (origin : Origin)
    (entries : List (DisputeKey × Option Bool)) : OpResult :=
  match origin with
  | .signed voter => .ok (voteManyGo voter s entries)
  | _ => .error .Unauthorized

/-- `send_votes` (§4.4): flushes up to `maxCount` pending vote-tally
notifications to the governance collaborator; purely a relay-retry
mechanism. -/
def sendVotesRun (s : State) (origin : Origin) (maxCount : Nat) : OpResult :=
  match origin with
  | .signed _ =>
    let toSend := s.pendingVoteNotices.take maxCount
    .ok ({ s with pendingVoteNotices := s.pendingVoteNotices.drop maxCount },
      toSend.map (fun k => .VoteRelayed k))
  | _ => .error .Unauthorized

/-- `setup_data_feed` (§4.5): checks the query data hash and parameter
uniqueness, debits the initial escrow from the creator. -/
def setupDataFeedRun (s : State) (origin : Origin) (params : FeedParams)
    (queryData : List Nat) (amount : Nat) : OpResult :=
  match origin with
  | .signed creator =>
    if queryIdOf queryData ≠ params.queryId then .error .QueryDataMismatch
    else
      match alookup s.feeds params with
      | some _ => .error .FeedAlreadyExists
      | none =>
        match debit s creator amount with
        | none => .error .InsufficientBalance
        | some s1 => .ok ({ s1 with feeds := aset s1.feeds params amount }, [])
  | _ => .error .Unauthorized

/-- `fund_feed` (§4.5): adds to an existing feed's escrow, no cap. -/
def fundFeedRun (s : State) (origin : Origin) (params : FeedParams) (q : QueryId)
    (amount : Nat) : OpResult :=
  match origin with
  | .signed funder =>
    match alookup s.feeds params with
    | none => .error .FeedNotFound
    | some escrow =>
      if q ≠ params.queryId then .error .FeedNotFound
      else
        match debit s funder amount with
        | none => .error .InsufficientBalance
        | some s1 => .ok ({ s1 with feeds := aset s1.feeds params (escrow + amount) }, [])
  | _ => .error .Unauthorized

/-- Window membership for a feed claim (§4.5): the timestamp must fall in
`[start_time + k * interval, start_time + k * interval + window)` for some
`k`. -/
def inFeedWindow (params : FeedParams) (t : Timestamp) : Bool :=
  params.interval ≠ 0 && params.startTime ≤ t &&
    (t - params.startTime) % params.interval < params.window

/-- One timestamp of a feed claim (§4.5): fails with `AlreadyClaimed`,
`ReportNotFound`, `TimestampOutsideWindow` or `ReportDisputed`; otherwise
pays `reward + reward_growth_rate × (elapsed since window start)` from the
escrow — capped at the remaining escrow — to the original reporter, and
marks the timestamp claimed. -/
def feedClaimStep (params : FeedParams) (s : State) (t : Timestamp) : Except Error State :=
  if claimedFlag s params.queryId t then .error .AlreadyClaimed
  else
    match reportAt s params.queryId t with
    | none => .error .ReportNotFound
    | some rep =>
      if ¬ inFeedWindow params t then .error .TimestampOutsideWindow
      else if rep.voided then .error .ReportDisputed
      else
        let escrow := (alookup s.feeds params).getD 0
        let windowStart := params.startTime + (t - params.startTime) / params.interval * params.interval
        let amount := params.reward + params.rewardIncreasePerSecond * (t - windowStart)
        let paid := min amount escrow
        let s1 := { s with feeds := aset s.feeds params (escrow - paid),
                           claimed := aset s.claimed (params.queryId, t) true }
        .ok (credit s1 rep.reporter paid)

def feedClaimList (params : FeedParams) : State → List Timestamp → Except Error State
  | s, [] => .ok s
  | s, t :: rest =>
    match feedClaimStep params s t with
    | .error e => .error e
    | .ok s1 => feedClaimList params s1 rest

/-- `claim_tip_from_feed` (§4.5): per-timestamp checks and payouts; the
whole call is atomic, so any failing timestamp aborts it. -/
def claimTipFromFeedRun (s : State) (origin : Origin) (params : FeedParams) (q : QueryId)
    (timestamps : List Timestamp) : OpResult :=
  match origin with
  | .signed _ =>
    match alookup s.feeds params with
    | none => .error .FeedNotFound
    | some _ =>
      if q ≠ params.queryId then .error .FeedNotFound
      else
        match feedClaimList params s timestamps with
        | .error e => .error e
        | .ok s1 => .ok (s1, [])
  | _ => .error .Unauthorized

/-- `tip` (§4.5): validates the query data and a nonzero amount, debits
the tipper and adds to the query's one-off tip pool. -/
def tipRun (s : State) (origin : Origin) (q : QueryId) (amount : Nat)
    (queryData : List Nat) : OpResult :=
  match origin with
  | .signed tipper =>
    if queryIdOf queryData ≠ q then .error .QueryDataMismatch
    else if amount = 0 then .error .ZeroAmount
    else
      match debit s tipper amount with
      | none => .error .InsufficientBalance
      | some s1 =>
        let pool := (alookup s1.tipsPool q).getD []
        .ok ({ s1 with tipsPool := aset s1.tipsPool q (pool ++ [⟨amount, s.now⟩]) },
          [.TipAdded q amount tipper])
  | _ => .error .Unauthorized

/-- Whether tip entry `e` is consumable by a claim of the report at `t`:
the tip was added before `t` and every report between the tip and `t` is
already claimed or voided, so `t` is the earliest unclaimed undisputed
report after the tip (§3 Tip, §4.5). -/
def tipConsumableBy (s : State) (q : QueryId) (t : Timestamp) (e : TipEntry) : Bool :=
  decide (e.time < t) &&
    (reportsOf s q).all (fun r =>
      !(decide (e.time < r.time) && decide (r.time < t)) || r.voided || claimedFlag s q r.time)

/-- One timestamp of a one-off tip claim (§4.5): an already claimed
timestamp fails with `AlreadyClaimed`; otherwise the timestamp must be an
existing, undisputed report past the 12-hour dispute window with at least
one consumable tip, else `NotEligible`; pays the consumable tips to the
original reporter exactly once and marks the timestamp claimed. -/
def onetimeClaimStep (q : QueryId) (s : State) (t : Timestamp) : Except Error State :=
  if claimedFlag s q t then .error .AlreadyClaimed
  else
    match reportAt s q t with
    | none => .error .NotEligible
    | some rep =>
      if rep.voided then .error .NotEligible
      else if s.now < t + disputePeriod then .error .NotEligible
      else
        let pool := (alookup s.tipsPool q).getD []
        let consumable := pool.filter (tipConsumableBy s q t)
        if consumable.isEmpty then .error .NotEligible
        else
          let paid := (consumable.map TipEntry.amount).sum
          let remaining := pool.filter (fun e => ! tipConsumableBy s q t e)
          let s1 := { s with tipsPool := aset s.tipsPool q remaining,
                             claimed := aset s.claimed (q, t) true }
          .ok (credit s1 rep.reporter paid)

def onetimeClaimList (q : QueryId) : State → List Timestamp → Except Error State
  | s, [] => .ok s
  | s, t :: rest =>
    match onetimeClaimStep q s t with
    | .error e => .error e
    | .ok s1 => onetimeClaimList q s1 rest

/-- `claim_onetime_tip` (§4.5): atomic over its timestamp list. -/
def claimOnetimeTipRun (s : State) (origin : Origin) (q : QueryId)
    (timestamps : List Timestamp) : OpResult :=
  match origin with
  | .signed _ =>
    match onetimeClaimList q s timestamps with
    | .error e => .error e
    | .ok s1 => .ok (s1, [])
  | _ => .error .Unauthorized

/-- Tick scheduler (§2): runs once per block with no user-triggered entry
point — stake-amount rebase, then flush of the queued outbound vote
notifications; never fails the block. -/
def onInitRun (s : State) : OpResult :=
  match updateStakeAmountRun s with
  | .ok (s1, _) =>
    .ok ({ s1 with pendingVoteNotices := [] },
      s1.pendingVoteNotices.map (fun k => .VoteRelayed k))
  | .error e => .error e

/-- The external time source (§6): monotonic, advanced only externally. -/
def advanceTimeRun (s : State) (delta : Nat) : OpResult :=
  .ok ({ s with now := s.now + delta }, [])

/-! ## The operation alphabet and the dispatcher -/

inductive Op
  | register (origin : Origin)
  | reportStakeDeposited (origin : Origin) (reporter : AccountId) (amount : Nat) (addr : Nat)
  | reportStakingWithdrawRequest (origin : Origin) (reporter : AccountId) (amount : Nat)
  | reportStakeWithdrawn (origin : Origin) (reporter : AccountId) (amount : Nat)
  | reportSlash (origin : Origin) (reporter : AccountId) (amount : Nat)
  | updateStakeAmount
  | submitValue (origin : Origin) (queryId : QueryId) (value : List Nat) (queryData : List Nat)
  | beginDispute (origin : Origin) (queryId : QueryId) (timestamp : Timestamp)
  | reportVoteTallied (origin : Origin) (key : DisputeKey) (result : VoteResult)
  | reportVoteExecuted (origin : Origin) (key : DisputeKey)
  | vote (origin : Origin) (key : DisputeKey) (choice : Option Bool)
  | voteOnMultipleDisputes (origin : Origin) (entries : List (DisputeKey × Option Bool))
  | sendVotes (origin : Origin) (maxCount : Nat)
  | setupDataFeed (origin : Origin) (params : FeedParams) (queryData : List Nat) (amount : Nat)
  | fundFeed (origin : Origin) (params : FeedParams) (queryId : QueryId) (amount : Nat)
  | claimTipFromFeed (origin : Origin) (params : FeedParams) (queryId : QueryId)
      (timestamps : List Timestamp)
  | tip (origin : Origin) (queryId : QueryId) (amount : Nat) (queryData : List Nat)
  | claimOnetimeTip (origin : Origin) (queryId : QueryId) (timestamps : List Timestamp)
  | advanceTime (delta : Nat)
  | onInit
deriving DecidableEq

def runOp : Op → State → OpResult
  | .register origin, s => registerRun s origin
  | .reportStakeDeposited origin r a addr, s => reportStakeDepositedRun s origin r a addr
  | .reportStakingWithdrawRequest origin r a, s => reportStakingWithdrawRequestRun s origin r a
  | .reportStakeWithdrawn origin r a, s => reportStakeWithdrawnRun s origin r a
  | .reportSlash origin r a, s => reportSlashRun s origin r a
  | .updateStakeAmount, s => updateStakeAmountRun s
  | .submitValue origin q v d, s => submitValueRun s origin q v d
  | .beginDispute origin q t, s => beginDisputeRun s origin q t
  | .reportVoteTallied origin k res, s => reportVoteTalliedRun s origin k res
  | .reportVoteExecuted origin k, s => reportVoteExecutedRun s origin k
  | .vote origin k c, s => voteOpRun s origin k c
  | .voteOnMultipleDisputes origin es, s => voteOnMultipleDisputesRun s origin es
  | .sendVotes origin n, s => sendVotesRun s origin n
  | .setupDataFeed origin p d a, s => setupDataFeedRun s origin p d a
  | .fundFeed origin p q a, s => fundFeedRun s origin p q a
  | .claimTipFromFeed origin p q tss, s => claimTipFromFeedRun s origin p q tss
  | .tip origin q a d, s => tipRun s origin q a d
  | .claimOnetimeTip origin q tss, s => claimOnetimeTipRun s origin q tss
  | .advanceTime dt, s => advanceTimeRun s dt
  | .onInit, s => onInitRun s

/-- Post-state of an operation: the new state on success, the unchanged
pre-state on failure (§5: all-or-nothing per call). -/
def applyOp (op : Op) (s : State) : State :=
  match runOp op s with
  | .ok (s', _) => s'
  | .error _ => s

/-- Events emitted by an operation (none when it fails). -/
def runEvents (op : Op) (s : State) : List Event :=
  match runOp op s with
  | .ok (_, ev) => ev
  | .error _ => []

/-- The error an operation fails with, when it fails. -/
def errOf (op : Op) (s : State) : Option Error :=
  match runOp op s with
  | .ok _ => none
  | .error e => some e

/-- Whether an operation succeeds. -/
def okRun (op : Op) (s : State) : Bool :=
  match runOp op s with
  | .ok _ => true
  | .error _ => false

/-- The only operation exempt from the all-or-nothing rule (§4.4, §5). -/
def isBatchVote : Op → Bool
  | .voteOnMultipleDisputes _ _ => true
  | _ => false

/-- One best-effort vote: the post-state of the vote when it succeeds, the
unchanged state when it fails. -/
def voteStep (voter : AccountId) (s : State) (e : DisputeKey × Option Bool) : State :=
  match voteRun s voter e.1 e.2 with
  | .ok (s1, _) => s1
  | .error _ => s

/-- The state after the same voter votes twice on the same dispute. -/
def doubleVote (s : State) (voter : AccountId) (k : DisputeKey) (c1 c2 : Option Bool) : State :=
  applyOp (.vote (.signed voter) k c2) (applyOp (.vote (.signed voter) k c1) s)

/-! ## Concrete states used to instantiate the theorems -/

/-- A small concrete state: reporter 1 has 1200 staked of which 100 are
locked behind a withdrawal request made at time 1000; account 2 holds a
ledger balance; one report exists at (query 9, time 90000); now = 100000. -/
def egState : State :=
  { now := 100000, paraId := 3000, governanceAddr := 77, stakingAddr := 88,
    baseDisputeFee := 10, maxDisputeFee := 100, stakeAmount := 1000, stakeUsdTarget := 500,
    reportingLock := 3600, stakingPriceQueryId := 11, localPriceQueryId := 12,
    balances := [(1, 1000), (2, 500)],
    stakers := [(1, ⟨1200, 100, some 1000, 7⟩)],
    reports := [(9, [⟨90000, [1, 2], 1, 0, false⟩])],
    disputes := [], votes := [], tallies := [], pendingVoteNotices := [],
    feeds := [], tipsPool := [], claimed := [], slashPool := 0 }

/-- `egState` at a later time, after the withdrawal lock has expired. -/
def egLateState : State :=
  { egState with now := 700000 }

/-- `egState` with the report's first dispute round already tallied
against the reporter at time 95000. -/
def egDispState : State :=
  { egState with disputes := [((9, 90000), ⟨1, 10, .Tallied .Passed 95000, [(2, 10)], 1⟩)] }

/-- `egState` with an open dispute round on the report. -/
def egVoteState : State :=
  { egState with disputes := [((9, 90000), ⟨1, 10, .Opened, [(2, 10)], 1⟩)] }

/-- `egState` with no ledger balances at all: the dispute fee cannot be
escrowed. -/
def egNoBalanceState : State :=
  { egState with balances := [] }

def egParams : FeedParams :=
  ⟨9, 10, 0, 700, 60, 0, 0⟩

/-- `egState` with a funded feed for query 9 and the timestamp 90000
already claimed. -/
def egClaimState : State :=
  { egState with feeds := [(egParams, 50)], claimed := [((9, 90000), true)],
                 tipsPool := [(9, [⟨5, 100⟩])] }

/-! ## Derived vote tallies and invariants -/

/-- Aggregate tally of a dispute recomputed from scratch from the vote
entries: the reference against which the incrementally maintained counters
are compared. -/
def derivedTally : List ((DisputeKey × AccountId) × Option Bool) → DisputeKey → Tally
  | [], _ => ⟨0, 0, 0⟩
  | p :: rest, k =>
    if p.1.1 = k then tallyInc (derivedTally rest k) p.2 else derivedTally rest k

/-- The counter of `t` charged by choice `c`. -/
def tallyField (t : Tally) : Option Bool → Nat
  | some true => t.doesSupport
  | some false => t.against
  | none => t.invalid

def GoodAcc (acc : StakeAccount) : Prop :=
  0 ≤ acc.staked ∧ 0 ≤ acc.locked ∧ acc.locked ≤ acc.staked

/-- The specified stake-ledger invariant (§8): staked and locked amounts
are nonnegative and the locked amount never exceeds the staked amount. -/
def StakeInv (s : State) : Prop :=
  ∀ p ∈ s.stakers, GoodAcc p.2

instance (acc : StakeAccount) : Decidable (GoodAcc acc) := by
  unfold GoodAcc
  infer_instance

instance (s : State) : Decidable (StakeInv s) := by
  unfold StakeInv
  exact List.decidableBAll _ _

end Tellor

namespace Tellor

/-! ## Association-list lemmas -/

theorem alookup_aset_self {α β : Type} [DecidableEq α] (l : List (α × β)) (a : α) (v : β) :
    alookup (aset l a v) a = some v := by
  induction l with
  | nil => simp [aset, alookup]
  | cons p t ih =>
    by_cases h : p.1 = a
    · simp [aset, h, alookup]
    · obtain ⟨k, w⟩ := p
      simp only at h
      simp [aset, h, alookup, ih]

theorem alookup_aset_ne {α β : Type} [DecidableEq α] (l : List (α × β)) (a b : α) (v : β)
    (h : a ≠ b) : alookup (aset l a v) b = alookup l b := by
  induction l with
  | nil => simp [aset, alookup, h]
  | cons p t ih =>
    obtain ⟨k, w⟩ := p
    by_cases hk : k = a
    · subst hk
      simp [aset, alookup, h, ih]
    · simp [aset, hk, alookup, ih]

theorem aset_aset_self {α β : Type} [DecidableEq α] (l : List (α × β)) (a : α) (v w : β) :
    aset (aset l a v) a w = aset l a w := by
  induction l with
  | nil => simp [aset]
  | cons p t ih =>
    obtain ⟨k, u⟩ := p
    by_cases hk : k = a
    · simp [aset, hk]
    · simp [aset, hk, ih]

theorem countKey_aset {α β : Type} [DecidableEq α] (l : List (α × β)) (a : α) (v : β)
    (h : countKey l a ≤ 1) : countKey (aset l a v) a = 1 := by
  induction l with
  | nil => simp [aset, countKey]
  | cons p t ih =>
    obtain ⟨k, u⟩ := p
    by_cases hk : k = a
    · subst hk
      simp [countKey, aset] at h ⊢
      omega
    · simp [countKey, aset, hk] at h ⊢
      exact ih h

theorem countKey_pos_of_alookup {α β : Type} [DecidableEq α] (l : List (α × β)) (a : α) (v : β)
    (h : alookup l a = some v) : 1 ≤ countKey l a := by
  induction l with
  | nil => simp [alookup] at h
  | cons p t ih =>
    obtain ⟨k, u⟩ := p
    by_cases hk : k = a
    · simp [countKey, hk]
    · simp [alookup, hk] at h
      simp [countKey, hk]
      exact ih h

theorem mem_aset {α β : Type} [DecidableEq α] (l : List (α × β)) (a : α) (v : β) :
    ∀ p ∈ aset l a v, p = (a, v) ∨ p ∈ l := by
  induction l with
  | nil => simp [aset]
  | cons q t ih =>
    obtain ⟨k, u⟩ := q
    by_cases hk : k = a
    · intro p hp
      simp [aset, hk] at hp
      rcases hp with h | h
      · left; simp [h]
      · right; simp [h]
    · intro p hp
      simp [aset, hk] at hp
      rcases hp with h | h
      · right; simp [h]
      · rcases ih p h with h1 | h1
        · left; exact h1
        · right; simp [h1]

theorem alookup_mem {α β : Type} [DecidableEq α] (l : List (α × β)) (a : α) (v : β)
    (h : alookup l a = some v) : (a, v) ∈ l := by
  induction l with
  | nil => simp [alookup] at h
  | cons p t ih =>
    obtain ⟨k, u⟩ := p
    by_cases hk : k = a
    · subst hk
      simp [alookup] at h
      simp [h]
    · simp [alookup, hk] at h
      simp [ih h]

/-! ## Tally lemmas -/

theorem tallyDec_tallyInc_same (t : Tally) (c : Option Bool) :
    tallyDec (tallyInc t c) c = t := by
  cases c with
  | none => simp [tallyInc, tallyDec]
  | some b => cases b <;> simp [tallyInc, tallyDec]

theorem tallyInc_comm (t : Tally) (a b : Option Bool) :
    tallyInc (tallyInc t a) b = tallyInc (tallyInc t b) a := by
  cases a with
  | none => cases b with
    | none => rfl
    | some b' => cases b' <;> rfl
  | some a' => cases a' <;> cases b with
    | none => rfl
    | some b' => cases b' <;> rfl

theorem tallyDec_tallyInc_comm (t : Tally) (a c : Option Bool)
    (h : 1 ≤ tallyField t c) : tallyDec (tallyInc t a) c = tallyInc (tallyDec t c) a := by
  obtain ⟨ts, ta, ti⟩ := t
  cases a with
  | none =>
    cases c with
    | none => simp [tallyInc, tallyDec, tallyField] at *; omega
    | some c' => cases c' <;> simp [tallyInc, tallyDec, tallyField] at * <;> omega
  | some a' =>
    cases a' <;> cases c with
    | none => simp [tallyInc, tallyDec, tallyField] at * <;> omega
    | some c' => cases c' <;> simp [tallyInc, tallyDec, tallyField] at * <;> omega

theorem tallyField_tallyInc_le (t : Tally) (a c : Option Bool) :
    tallyField t c ≤ tallyField (tallyInc t a) c := by
  cases a with
  | none => cases c with
    | none => simp [tallyInc, tallyField]
    | some cb => cases cb <;> simp [tallyInc, tallyField]
  | some ab => cases ab with
    | false => cases c with
      | none => simp [tallyInc, tallyField]
      | some cb => cases cb <;> simp [tallyInc, tallyField]
    | true => cases c with
      | none => simp [tallyInc, tallyField]
      | some cb => cases cb <;> simp [tallyInc, tallyField]

theorem tallyField_tallyInc_self (t : Tally) (c : Option Bool) :
    1 ≤ tallyField (tallyInc t c) c := by
  cases c with
  | none => simp [tallyInc, tallyField]
  | some b => cases b <;> simp [tallyInc, tallyField]

theorem derivedTally_pos (l : List ((DisputeKey × AccountId) × Option Bool))
    (kv : DisputeKey × AccountId) (c : Option Bool) (k : DisputeKey)
    (hm : alookup l kv = some c) (hk : kv.1 = k) :
    1 ≤ tallyField (derivedTally l k) c := by
  induction l with
  | nil => simp [alookup] at hm
  | cons p t ih =>
    obtain ⟨pk, pc⟩ := p
    by_cases hp : pk = kv
    · subst hp
      simp [alookup] at hm
      subst hm
      have h4 : derivedTally ((pk, pc) :: t) k = tallyInc (derivedTally t k) pc := by
        simp [derivedTally, hk]
      rw [h4]
      exact tallyField_tallyInc_self _ _
    · simp [alookup, hp] at hm
      have hrec := ih hm
      by_cases hpk : pk.1 = k
      · have h4 : derivedTally ((pk, pc) :: t) k = tallyInc (derivedTally t k) pc := by
          simp [derivedTally, hpk]
        rw [h4]
        exact le_trans hrec (tallyField_tallyInc_le _ _ _)
      · simpa [derivedTally, hpk] using hrec

theorem derivedTally_aset (l : List ((DisputeKey × AccountId) × Option Bool))
    (kv : DisputeKey × AccountId) (c : Option Bool) (k : DisputeKey)
    (hcount : countKey l kv ≤ 1) (hk : kv.1 = k) :
    derivedTally (aset l kv c) k =
      tallyInc (tallyDecOpt (derivedTally l k) (alookup l kv)) c := by
  induction l with
  | nil => simp [aset, derivedTally, alookup, tallyDecOpt, hk]
  | cons p t ih =>
    obtain ⟨pk, pc⟩ := p
    by_cases hp : pk = kv
    · subst hp
      have h1 : aset ((pk, pc) :: t) pk c = (pk, c) :: t := by simp [aset]
      have h2 : alookup ((pk, pc) :: t) pk = some pc := by simp [alookup]
      have h3 : derivedTally ((pk, c) :: t) k = tallyInc (derivedTally t k) c := by
        simp [derivedTally, hk]
      have h4 : derivedTally ((pk, pc) :: t) k = tallyInc (derivedTally t k) pc := by
        simp [derivedTally, hk]
      rw [h1, h3, h2, h4, tallyDecOpt, tallyDec_tallyInc_same]
    · have hcount' : countKey t kv ≤ 1 := by
        simp [countKey, hp] at hcount
        exact hcount
      have ihh := ih hcount'
      have h1 : aset ((pk, pc) :: t) kv c = (pk, pc) :: aset t kv c := by simp [aset, hp]
      have h2 : alookup ((pk, pc) :: t) kv = alookup t kv := by simp [alookup, hp]
      by_cases hpk : pk.1 = k
      · have h3 : derivedTally ((pk, pc) :: aset t kv c) k =
            tallyInc (derivedTally (aset t kv c) k) pc := by simp [derivedTally, hpk]
        have h4 : derivedTally ((pk, pc) :: t) k = tallyInc (derivedTally t k) pc := by
          simp [derivedTally, hpk]
        rw [h1, h3, ihh, h2, h4]
        cases hl : alookup t kv with
        | none => simp [tallyDecOpt, tallyInc_comm]
        | some c0 =>
          have hpos := derivedTally_pos t kv c0 k hl hk
          simp only [tallyDecOpt]
          rw [tallyDec_tallyInc_comm _ _ _ hpos, tallyInc_comm]
      · have h3 : derivedTally ((pk, pc) :: aset t kv c) k = derivedTally (aset t kv c) k := by
          simp [derivedTally, hpk]
        have h4 : derivedTally ((pk, pc) :: t) k = derivedTally t k := by
          simp [derivedTally, hpk]
        rw [h1, h3, ihh, h2, h4]

/-! ## Stake-ledger invariant machinery -/

theorem stakeInv_of_eq (s s' : State) (heq : s'.stakers = s.stakers) (h : StakeInv s) :
    StakeInv s' := by
  intro p hp
  rw [heq] at hp
  exact h p hp

theorem goodAcc_lookup (s : State) (h : StakeInv s) (a : AccountId) (acc : StakeAccount)
    (hl : alookup s.stakers a = some acc) : GoodAcc acc :=
  h (a, acc) (alookup_mem _ _ _ hl)

theorem stakeInv_setStaker (s : State) (a : AccountId) (acc : StakeAccount)
    (h : StakeInv s) (hg : GoodAcc acc) : StakeInv (setStaker s a acc) := by
  intro p hp
  rcases mem_aset s.stakers a acc p hp with h1 | h1
  · rw [h1]
    exact hg
  · exact h p h1

theorem debit_stakers (s : State) (a : AccountId) (n : Nat) (s' : State)
    (h : debit s a n = some s') : s'.stakers = s.stakers := by
  unfold debit at h
  split at h
  · simp only [Option.some.injEq] at h
    rw [← h]
  · simp at h

theorem credit_stakers (s : State) (a : AccountId) (n : Nat) :
    (credit s a n).stakers = s.stakers := rfl

theorem foldl_credit_stakers (l : List (AccountId × Nat)) (s : State) :
    (l.foldl (fun st p => credit st p.1 p.2) s).stakers = s.stakers := by
  induction l generalizing s with
  | nil => rfl
  | cons p t ih => simpa [credit] using ih (credit s p.1 p.2)

theorem updateStakeAmount_stakers (s s1 : State) (ev : List Event)
    (h : updateStakeAmountRun s = .ok (s1, ev)) : s1.stakers = s.stakers := by
  simp only [updateStakeAmountRun] at h
  repeat' split at h
  all_goals first
    | (simp only [Except.ok.injEq, Prod.mk.injEq] at h;
       obtain ⟨h1, h2⟩ := h;
       subst h1;
       rfl)
    | exact Except.noConfusion h

theorem voteRun_stakers (s : State) (voter : AccountId) (k : DisputeKey) (c : Option Bool)
    (s1 : State) (ev : List Event) (h : voteRun s voter k c = .ok (s1, ev)) :
    s1.stakers = s.stakers := by
  simp only [voteRun] at h
  repeat' split at h
  all_goals first
    | (simp only [Except.ok.injEq, Prod.mk.injEq] at h;
       obtain ⟨h1, h2⟩ := h;
       subst h1;
       rfl)
    | exact Except.noConfusion h

theorem voteManyGo_stakers (voter : AccountId)
    (es : List (DisputeKey × Option Bool)) (s : State) :
    (voteManyGo voter s es).1.stakers = s.stakers := by
  induction es generalizing s with
  | nil => rfl
  | cons e rest ih =>
    simp only [voteManyGo]
    cases hr : voteRun s voter e.1 e.2 with
    | ok p =>
      obtain ⟨s1, ev1⟩ := p
      have := voteRun_stakers s voter e.1 e.2 s1 ev1 hr
      simpa [this] using ih s1
    | error e' => exact ih s

theorem feedClaimStep_stakers (params : FeedParams) (s : State) (t : Timestamp) (s1 : State)
    (h : feedClaimStep params s t = .ok s1) : s1.stakers = s.stakers := by
  simp only [feedClaimStep] at h
  repeat' split at h
  all_goals first
    | (simp only [Except.ok.injEq] at h;
       subst h;
       rfl)
    | exact Except.noConfusion h

theorem feedClaimList_stakers (params : FeedParams) (tss : List Timestamp) (s s1 : State)
    (h : feedClaimList params s tss = .ok s1) : s1.stakers = s.stakers := by
  induction tss generalizing s with
  | nil =>
    simp only [feedClaimList, Except.ok.injEq] at h
    rw [← h]
  | cons t rest ih =>
    simp only [feedClaimList] at h
    cases hstep : feedClaimStep params s t with
    | error e => rw [hstep] at h; simp at h
    | ok s2 =>
      rw [hstep] at h
      rw [ih s2 h, feedClaimStep_stakers params s t s2 hstep]

theorem onetimeClaimStep_stakers (q : QueryId) (s : State) (t : Timestamp) (s1 : State)
    (h : onetimeClaimStep q s t = .ok s1) : s1.stakers = s.stakers := by
  simp only [onetimeClaimStep] at h
  repeat' split at h
  all_goals first
    | (simp only [Except.ok.injEq] at h;
       subst h;
       rfl)
    | exact Except.noConfusion h

theorem onetimeClaimList_stakers (q : QueryId) (tss : List Timestamp) (s s1 : State)
    (h : onetimeClaimList q s tss = .ok s1) : s1.stakers = s.stakers := by
  induction tss generalizing s with
  | nil =>
    simp only [onetimeClaimList, Except.ok.injEq] at h
    rw [← h]
  | cons t rest ih =>
    simp only [onetimeClaimList] at h
    cases hstep : onetimeClaimStep q s t with
    | error e => rw [hstep] at h; simp at h
    | ok s2 =>
      rw [hstep] at h
      rw [ih s2 h, onetimeClaimStep_stakers q s t s2 hstep]

/-- Invariant preservation along a successful run: the post-state of any
operation that succeeds satisfies the stake-ledger invariant whenever the
pre-state does. -/
theorem stakeInv_runOp (op : Op) (s : State) (h : StakeInv s)
    (s1 : State) (ev : List Event) (hr : runOp op s = .ok (s1, ev)) : StakeInv s1 := by
  cases op with
  | register origin =>
    simp only [runOp, registerRun] at hr
    repeat' split at hr
    all_goals first
      | (simp only [Except.ok.injEq, Prod.mk.injEq] at hr
         obtain ⟨h1, h2⟩ := hr
         subst h1
         exact stakeInv_of_eq s _ rfl h)
      | exact Except.noConfusion hr
  | reportStakeDeposited origin r a addr =>
    simp only [runOp, reportStakeDepositedRun] at hr
    split at hr
    · simp only [Except.ok.injEq, Prod.mk.injEq] at hr
      obtain ⟨h1, h2⟩ := hr
      subst h1
      refine stakeInv_setStaker _ _ _ h ?_
      have hg : GoodAcc ((alookup s.stakers r).getD ⟨0, 0, none, addr⟩) := by
        cases hl : alookup s.stakers r with
        | none => exact ⟨le_refl 0, le_refl 0, le_refl 0⟩
        | some acc => exact goodAcc_lookup s h r acc hl
      obtain ⟨g1, g2, g3⟩ := hg
      have ha := Int.natCast_nonneg a
      unfold GoodAcc
      dsimp only
      omega
    · exact Except.noConfusion hr
  | reportStakingWithdrawRequest origin r a =>
    simp only [runOp, reportStakingWithdrawRequestRun] at hr
    split at hr
    · split at hr
      · exact Except.noConfusion hr
      · rename_i acc heq
        split at hr
        · rename_i hcond
          simp only [Except.ok.injEq, Prod.mk.injEq] at hr
          obtain ⟨h1, h2⟩ := hr
          subst h1
          refine stakeInv_setStaker _ _ _ h ?_
          obtain ⟨g1, g2, g3⟩ := goodAcc_lookup s h r acc heq
          have ha := Int.natCast_nonneg a
          unfold GoodAcc
          dsimp only
          omega
        · exact Except.noConfusion hr
    · exact Except.noConfusion hr
  | reportStakeWithdrawn origin r a =>
    simp only [runOp, reportStakeWithdrawnRun] at hr
    split at hr
    · split at hr
      · exact Except.noConfusion hr
      · rename_i acc heq
        split at hr
        · exact Except.noConfusion hr
        · rename_i t0 hrt
          split at hr
          · exact Except.noConfusion hr
          · rename_i hlock
            split at hr
            · rename_i hcond
              simp only [Except.ok.injEq, Prod.mk.injEq] at hr
              obtain ⟨h1, h2⟩ := hr
              subst h1
              refine stakeInv_setStaker _ _ _ h ?_
              obtain ⟨g1, g2, g3⟩ := goodAcc_lookup s h r acc heq
              unfold GoodAcc
              dsimp only
              omega
            · exact Except.noConfusion hr
    · exact Except.noConfusion hr
  | reportSlash origin r a =>
    simp only [runOp, reportSlashRun] at hr
    split at hr
    · split at hr
      · exact Except.noConfusion hr
      · rename_i acc heq
        simp only [slashStakeAccount, Except.ok.injEq, Prod.mk.injEq] at hr
        obtain ⟨h1, h2⟩ := hr
        subst h1
        refine stakeInv_of_eq _ _ rfl (stakeInv_setStaker s r _ h ?_)
        obtain ⟨g1, g2, g3⟩ := goodAcc_lookup s h r acc heq
        have ha := Int.natCast_nonneg a
        unfold GoodAcc
        dsimp only
        omega
    · exact Except.noConfusion hr
  | updateStakeAmount =>
    simp only [runOp] at hr
    exact stakeInv_of_eq s s1 (updateStakeAmount_stakers s s1 ev hr) h
  | submitValue origin q v d =>
    simp only [runOp, submitValueRun] at hr
    repeat' split at hr
    all_goals first
      | (simp only [Except.ok.injEq, Prod.mk.injEq] at hr
         obtain ⟨h1, h2⟩ := hr
         subst h1
         exact stakeInv_of_eq s _ rfl h)
      | exact Except.noConfusion hr
  | beginDispute origin q t =>
    simp only [runOp, beginDisputeRun] at hr
    repeat' split at hr
    all_goals first
      | (simp only [Except.ok.injEq, Prod.mk.injEq] at hr
         obtain ⟨h1, h2⟩ := hr
         subst h1
         rename_i s9 hx
         refine stakeInv_of_eq s _ ?_ h
         exact debit_stakers s _ _ s9 hx)
      | exact Except.noConfusion hr
  | reportVoteTallied origin k res =>
    simp only [runOp, reportVoteTalliedRun] at hr
    repeat' split at hr
    all_goals first
      | (simp only [Except.ok.injEq, Prod.mk.injEq] at hr
         obtain ⟨h1, h2⟩ := hr
         subst h1
         exact stakeInv_of_eq s _ rfl h)
      | exact Except.noConfusion hr
  | reportVoteExecuted origin k =>
    simp only [runOp, reportVoteExecutedRun] at hr
    split at hr
    · split at hr
      · exact Except.noConfusion hr
      · rename_i d heq
        split at hr
        · rename_i outcome tt hst
          split at hr
          · rename_i hpassed
            split at hr
            · simp only [Except.ok.injEq, Prod.mk.injEq] at hr
              obtain ⟨h1, h2⟩ := hr
              subst h1
              exact stakeInv_of_eq s _ (foldl_credit_stakers _ _) h
            · rename_i acc hacc
              simp only [slashStakeAccount, Except.ok.injEq, Prod.mk.injEq] at hr
              obtain ⟨h1, h2⟩ := hr
              subst h1
              have hres : StakeInv (d.initiators.foldl (fun st p => credit st p.1 p.2) { s with disputes := aset s.disputes k { d with status := .Executed .Passed } }) :=
                stakeInv_of_eq s _ (foldl_credit_stakers _ _) h
              refine stakeInv_of_eq _ _ rfl (stakeInv_setStaker _ _ _ hres ?_)
              obtain ⟨g1, g2, g3⟩ := goodAcc_lookup _ hres _ acc hacc
              unfold GoodAcc
              dsimp only
              omega
          · rename_i hfailed
            simp only [Except.ok.injEq, Prod.mk.injEq] at hr
            obtain ⟨h1, h2⟩ := hr
            subst h1
            exact stakeInv_of_eq s _ rfl h
          · rename_i hinvalid
            simp only [Except.ok.injEq, Prod.mk.injEq] at hr
            obtain ⟨h1, h2⟩ := hr
            subst h1
            exact stakeInv_of_eq s _ (foldl_credit_stakers _ _) h
        · exact Except.noConfusion hr
    · exact Except.noConfusion hr
  | vote origin k c =>
    simp only [runOp, voteOpRun] at hr
    split at hr
    · rename_i voter
      exact stakeInv_of_eq s s1 (voteRun_stakers s voter k c s1 ev hr) h
    · exact Except.noConfusion hr
  | voteOnMultipleDisputes origin es =>
    simp only [runOp, voteOnMultipleDisputesRun] at hr
    split at hr
    · rename_i voter
      simp only [Except.ok.injEq] at hr
      have h1 : (voteManyGo voter s es).1 = s1 := by rw [hr]
      refine stakeInv_of_eq s s1 ?_ h
      rw [← h1, voteManyGo_stakers]
    · exact Except.noConfusion hr
  | sendVotes origin n =>
    simp only [runOp, sendVotesRun] at hr
    repeat' split at hr
    all_goals first
      | (simp only [Except.ok.injEq, Prod.mk.injEq] at hr
         obtain ⟨h1, h2⟩ := hr
         subst h1
         exact stakeInv_of_eq s _ rfl h)
      | exact Except.noConfusion hr
  | setupDataFeed origin p d a =>
    simp only [runOp, setupDataFeedRun] at hr
    repeat' split at hr
    all_goals first
      | (simp only [Except.ok.injEq, Prod.mk.injEq] at hr
         obtain ⟨h1, h2⟩ := hr
         subst h1
         rename_i s9 hx
         refine stakeInv_of_eq s _ ?_ h
         exact debit_stakers s _ _ s9 hx)
      | exact Except.noConfusion hr
  | fundFeed origin p q a =>
    simp only [runOp, fundFeedRun] at hr
    repeat' split at hr
    all_goals first
      | (simp only [Except.ok.injEq, Prod.mk.injEq] at hr
         obtain ⟨h1, h2⟩ := hr
         subst h1
         rename_i s9 hx
         refine stakeInv_of_eq s _ ?_ h
         exact debit_stakers s _ _ s9 hx)
      | exact Except.noConfusion hr
  | claimTipFromFeed origin p q tss =>
    simp only [runOp, claimTipFromFeedRun] at hr
    repeat' split at hr
    all_goals first
      | (simp only [Except.ok.injEq, Prod.mk.injEq] at hr
         obtain ⟨h1, h2⟩ := hr
         subst h1
         rename_i s9 hx
         refine stakeInv_of_eq s _ ?_ h
         exact feedClaimList_stakers _ _ s s9 hx)
      | exact Except.noConfusion hr
  | tip origin q a d =>
    simp only [runOp, tipRun] at hr
    repeat' split at hr
    all_goals first
      | (simp only [Except.ok.injEq, Prod.mk.injEq] at hr
         obtain ⟨h1, h2⟩ := hr
         subst h1
         rename_i s9 hx
         refine stakeInv_of_eq s _ ?_ h
         exact debit_stakers s _ _ s9 hx)
      | exact Except.noConfusion hr
  | claimOnetimeTip origin q tss =>
    simp only [runOp, claimOnetimeTipRun] at hr
    repeat' split at hr
    all_goals first
      | (simp only [Except.ok.injEq, Prod.mk.injEq] at hr
         obtain ⟨h1, h2⟩ := hr
         subst h1
         rename_i s9 hx
         refine stakeInv_of_eq s _ ?_ h
         exact onetimeClaimList_stakers _ _ s s9 hx)
      | exact Except.noConfusion hr
  | advanceTime dt =>
    simp only [runOp, advanceTimeRun, Except.ok.injEq, Prod.mk.injEq] at hr
    obtain ⟨h1, h2⟩ := hr
    subst h1
    exact stakeInv_of_eq s _ rfl h
  | onInit =>
    simp only [runOp, onInitRun] at hr
    split at hr
    · rename_i s2 ev2 hup
      simp only [Except.ok.injEq, Prod.mk.injEq] at hr
      obtain ⟨h1, h2⟩ := hr
      subst h1
      exact stakeInv_of_eq s _ (updateStakeAmount_stakers s s2 ev2 hup) h
    · exact Except.noConfusion hr

/-- Preservation of the stake-ledger invariant by every operation of the
core, from any starting state satisfying it. -/
theorem stakeInv_applyOp (op : Op) (s : State) (h : StakeInv s) : StakeInv (applyOp op s) := by
  unfold applyOp
  cases hr : runOp op s with
  | ok p =>
    obtain ⟨s1, ev⟩ := p
    exact stakeInv_runOp op s h s1 ev hr
  | error e => exact h

/-! ## Generic run/apply lemmas -/

theorem applyOp_of_err (op : Op) (s : State) (e : Error)
    (h : errOf op s = some e) : applyOp op s = s := by
  unfold errOf at h
  unfold applyOp
  cases hr : runOp op s with
  | ok p =>
    rw [hr] at h
    simp at h
  | error e2 => rfl

theorem applyOp_vote (s : State) (voter : AccountId) (k : DisputeKey) (c : Option Bool)
    (hopen : statusAt s k = some .Opened) :
    applyOp (.vote (.signed voter) k c) s = voteResultState s voter k c := by
  simp [applyOp, runOp, voteOpRun, voteRun, hopen]

theorem applyOp_vote_eq_voteStep (s : State) (voter : AccountId) (k : DisputeKey)
    (c : Option Bool) :
    applyOp (.vote (.signed voter) k c) s = voteStep voter s (k, c) := by
  simp only [applyOp, runOp, voteOpRun, voteStep]

theorem applyOp_batch (s : State) (voter : AccountId)
    (es : List (DisputeKey × Option Bool)) :
    applyOp (.voteOnMultipleDisputes (.signed voter) es) s = (voteManyGo voter s es).1 := by
  simp only [applyOp, runOp, voteOnMultipleDisputesRun]

theorem voteManyGo_fst (voter : AccountId) (es : List (DisputeKey × Option Bool)) (s : State) :
    (voteManyGo voter s es).1 = es.foldl (voteStep voter) s := by
  induction es generalizing s with
  | nil => rfl
  | cons e rest ih =>
    simp only [voteManyGo, List.foldl_cons, voteStep]
    cases hv : voteRun s voter e.1 e.2 with
    | ok p =>
      obtain ⟨s1, ev1⟩ := p
      simpa using ih s1
    | error err => exact ih s

/-! ## Claimed-flag lemmas for the settlement operations -/

theorem aset_true_self (l : List (DisputeKey × Bool)) (k : DisputeKey) :
    (alookup (aset l k true) k).getD false = true := by
  rw [alookup_aset_self]
  rfl

theorem aset_true_mono (l : List (DisputeKey × Bool)) (k k' : DisputeKey)
    (h : (alookup l k').getD false = true) :
    (alookup (aset l k true) k').getD false = true := by
  by_cases hk : k = k'
  · subst hk
    rw [alookup_aset_self]
    rfl
  · rw [alookup_aset_ne _ _ _ _ hk]
    exact h

theorem feedClaimStep_claimed_mono (params : FeedParams) (s : State) (t : Timestamp)
    (s1 : State) (q' : QueryId) (t' : Timestamp) (h : feedClaimStep params s t = .ok s1)
    (hc : claimedFlag s q' t' = true) : claimedFlag s1 q' t' = true := by
  simp only [feedClaimStep] at h
  repeat' split at h
  all_goals first
    | (simp only [Except.ok.injEq] at h;
       subst h;
       exact aset_true_mono _ _ _ hc)
    | exact Except.noConfusion h

theorem feedClaimStep_sets_flag (params : FeedParams) (s : State) (t : Timestamp)
    (s1 : State) (h : feedClaimStep params s t = .ok s1) :
    claimedFlag s1 params.queryId t = true := by
  simp only [feedClaimStep] at h
  repeat' split at h
  all_goals first
    | (simp only [Except.ok.injEq] at h;
       subst h;
       exact aset_true_self _ _)
    | exact Except.noConfusion h

theorem feedClaimList_claims (params : FeedParams) (tss : List Timestamp) (s s1 : State)
    (h : feedClaimList params s tss = .ok s1) :
    (∀ q' t', claimedFlag s q' t' = true → claimedFlag s1 q' t' = true) ∧
    (∀ t ∈ tss, claimedFlag s1 params.queryId t = true) := by
  induction tss generalizing s with
  | nil =>
    simp only [feedClaimList, Except.ok.injEq] at h
    subst h
    exact ⟨fun _ _ hc => hc, by simp⟩
  | cons t rest ih =>
    simp only [feedClaimList] at h
    cases hstep : feedClaimStep params s t with
    | error e =>
      rw [hstep] at h
      exact Except.noConfusion h
    | ok s2 =>
      rw [hstep] at h
      obtain ⟨mono2, marks2⟩ := ih s2 h
      refine ⟨fun q' t' hc => mono2 q' t' (feedClaimStep_claimed_mono params s t s2 q' t' hstep hc), ?_⟩
      intro u hu
      rcases List.mem_cons.mp hu with hu1 | hu2
      · subst hu1
        exact mono2 _ _ (feedClaimStep_sets_flag params s u s2 hstep)
      · exact marks2 u hu2

theorem feedClaimList_fails_when_claimed (params : FeedParams) (tss : List Timestamp) :
    ∀ (s : State) (t : Timestamp), t ∈ tss → claimedFlag s params.queryId t = true →
    ∃ e, feedClaimList params s tss = .error e := by
  induction tss with
  | nil =>
    intro s t ht hc
    simp at ht
  | cons t1 rest ih =>
    intro s t ht hc
    rcases List.mem_cons.mp ht with h1 | h2
    · subst h1
      refine ⟨.AlreadyClaimed, ?_⟩
      simp [feedClaimList, feedClaimStep, hc]
    · cases hstep : feedClaimStep params s t1 with
      | error e => exact ⟨e, by simp [feedClaimList, hstep]⟩
      | ok s2 =>
        obtain ⟨e, herr⟩ := ih s2 t h2 (feedClaimStep_claimed_mono params s t1 s2 _ _ hstep hc)
        exact ⟨e, by simp [feedClaimList, hstep, herr]⟩

theorem onetimeClaimStep_claimed_mono (q : QueryId) (s : State) (t : Timestamp)
    (s1 : State) (q' : QueryId) (t' : Timestamp) (h : onetimeClaimStep q s t = .ok s1)
    (hc : claimedFlag s q' t' = true) : claimedFlag s1 q' t' = true := by
  simp only [onetimeClaimStep] at h
  repeat' split at h
  all_goals first
    | (simp only [Except.ok.injEq] at h;
       subst h;
       exact aset_true_mono _ _ _ hc)
    | exact Except.noConfusion h

theorem onetimeClaimStep_sets_flag (q : QueryId) (s : State) (t : Timestamp)
    (s1 : State) (h : onetimeClaimStep q s t = .ok s1) :
    claimedFlag s1 q t = true := by
  simp only [onetimeClaimStep] at h
  repeat' split at h
  all_goals first
    | (simp only [Except.ok.injEq] at h;
       subst h;
       exact aset_true_self _ _)
    | exact Except.noConfusion h

theorem onetimeClaimList_claims (q : QueryId) (tss : List Timestamp) (s s1 : State)
    (h : onetimeClaimList q s tss = .ok s1) :
    (∀ q' t', claimedFlag s q' t' = true → claimedFlag s1 q' t' = true) ∧
    (∀ t ∈ tss, claimedFlag s1 q t = true) := by
  induction tss generalizing s with
  | nil =>
    simp only [onetimeClaimList, Except.ok.injEq] at h
    subst h
    exact ⟨fun _ _ hc => hc, by simp⟩
  | cons t rest ih =>
    simp only [onetimeClaimList] at h
    cases hstep : onetimeClaimStep q s t with
    | error e =>
      rw [hstep] at h
      exact Except.noConfusion h
    | ok s2 =>
      rw [hstep] at h
      obtain ⟨mono2, marks2⟩ := ih s2 h
      refine ⟨fun q' t' hc => mono2 q' t' (onetimeClaimStep_claimed_mono q s t s2 q' t' hstep hc), ?_⟩
      intro u hu
      rcases List.mem_cons.mp hu with hu1 | hu2
      · subst hu1
        exact mono2 _ _ (onetimeClaimStep_sets_flag q s u s2 hstep)
      · exact marks2 u hu2

theorem onetimeClaimList_fails_when_claimed (q : QueryId) (tss : List Timestamp) :
    ∀ (s : State) (t : Timestamp), t ∈ tss → claimedFlag s q t = true →
    ∃ e, onetimeClaimList q s tss = .error e := by
  induction tss with
  | nil =>
    intro s t ht hc
    simp at ht
  | cons t1 rest ih =>
    intro s t ht hc
    rcases List.mem_cons.mp ht with h1 | h2
    · subst h1
      refine ⟨.AlreadyClaimed, ?_⟩
      simp [onetimeClaimList, onetimeClaimStep, hc]
    · cases hstep : onetimeClaimStep q s t1 with
      | error e => exact ⟨e, by simp [onetimeClaimList, hstep]⟩
      | ok s2 =>
        obtain ⟨e, herr⟩ := ih s2 t h2 (onetimeClaimStep_claimed_mono q s t1 s2 _ _ hstep hc)
        exact ⟨e, by simp [onetimeClaimList, hstep, herr]⟩

/-! ## Claim theorems -/

/-- C2: every state-mutating operation except `vote_on_multiple_disputes`
is atomic — for every input and starting state, a call that fails with an
error leaves the entire state exactly as it was before the call; no
partial mutation is observable after a failed call. -/
theorem ops_atomic_except_batch (op : Op) (s : State) (e : Error)
    (hnb : isBatchVote op = false) (herr : errOf op s = some e) :
    applyOp op s = s :=
  applyOp_of_err op s e herr

theorem ops_atomic_except_batch_witness :
    isBatchVote (Op.reportSlash (.signed 1) 2 5) = false ∧
    errOf (Op.reportSlash (.signed 1) 2 5) egState = some .Unauthorized ∧
    applyOp (Op.reportSlash (.signed 1) 2 5) egState = egState :=
  ⟨rfl, rfl, ops_atomic_except_batch _ egState .Unauthorized rfl rfl⟩

/-- C8: the dispute identifier is the Keccak-256 hash of the ABI encoding
of the parachain id, the query id and the disputed timestamp, and the
function is pure and deterministic — recomputing it from equal inputs
always yields the same identifier. -/
theorem dispute_id_deterministic (p q t p' q' t' : Nat)
    (hp : p = p') (hq : q = q') (ht : t = t') :
    disputeIdBytes p q t = keccak256 (encodeUint p ++ encodeFixedBytes32 q ++ encodeUint t)
    ∧ disputeIdBytes p q t = disputeIdBytes p' q' t' :=
  ⟨rfl, by rw [hp, hq, ht]⟩

theorem dispute_id_deterministic_witness :
    disputeIdBytes 3000 5 90000 =
        keccak256 (encodeUint 3000 ++ encodeFixedBytes32 5 ++ encodeUint 90000)
    ∧ disputeIdBytes 3000 5 90000 = disputeIdBytes 3000 5 90000 :=
  dispute_id_deterministic 3000 5 90000 3000 5 90000 rfl rfl rfl

/-- C10: any signed account may vote on an open dispute — the vote
succeeds, records the (dispute, voter) entry and emits the `Voted` event,
with no hypothesis whatsoever on the voter's stake or balance. -/
theorem vote_requires_no_stake (s : State) (voter : AccountId) (k : DisputeKey)
    (c : Option Bool) (hopen : statusAt s k = some .Opened) :
    okRun (.vote (.signed voter) k c) s = true
    ∧ alookup (applyOp (.vote (.signed voter) k c) s).votes (k, voter) = some c
    ∧ runEvents (.vote (.signed voter) k c) s = [.Voted k c voter] := by
  refine ⟨?_, ?_, ?_⟩
  · simp [okRun, runOp, voteOpRun, voteRun, hopen]
  · rw [applyOp_vote s voter k c hopen]
    exact alookup_aset_self _ _ _
  · simp [runEvents, runOp, voteOpRun, voteRun, hopen]

theorem vote_requires_no_stake_witness :
    alookup egVoteState.stakers 99 = none ∧ alookup egVoteState.balances 99 = none ∧
    (okRun (.vote (.signed 99) (9, 90000) (some true)) egVoteState = true
      ∧ alookup (applyOp (.vote (.signed 99) (9, 90000) (some true)) egVoteState).votes
          ((9, 90000), 99) = some (some true)
      ∧ runEvents (.vote (.signed 99) (9, 90000) (some true)) egVoteState =
          [.Voted (9, 90000) (some true) 99]) :=
  ⟨rfl, rfl, vote_requires_no_stake egVoteState 99 (9, 90000) (some true) rfl⟩

/-- C4: `confirm_withdrawal` fails with `NoPendingWithdrawal` when no
request exists for the reporter, fails with `WithdrawalLockNotExpired`
while now is before request time + 7 days, and once the lock has expired
it succeeds — with the requested amount within the locked amount — and
reduces the staked and locked amounts together. -/
theorem confirm_withdrawal_lock (s : State) (r : AccountId) (a : Nat) :
    ((alookup s.stakers r = none ∨
        ∃ acc, alookup s.stakers r = some acc ∧ acc.requestTime = none) →
      errOf (.reportStakeWithdrawn .stakingContract r a) s = some .NoPendingWithdrawal)
    ∧ (∀ acc t0, alookup s.stakers r = some acc → acc.requestTime = some t0 →
        s.now < t0 + withdrawalLockPeriod →
        errOf (.reportStakeWithdrawn .stakingContract r a) s = some .WithdrawalLockNotExpired)
    ∧ (∀ acc t0, alookup s.stakers r = some acc → acc.requestTime = some t0 →
        t0 + withdrawalLockPeriod ≤ s.now → (a : Int) ≤ acc.locked →
        okRun (.reportStakeWithdrawn .stakingContract r a) s = true ∧
        ∃ acc', alookup (applyOp (.reportStakeWithdrawn .stakingContract r a) s).stakers r = some acc' ∧
          acc'.staked = acc.staked - (a : Int) ∧ acc'.locked = acc.locked - (a : Int)) := by
  refine ⟨?_, ?_, ?_⟩
  · intro h
    rcases h with hnone | ⟨acc, hl, hrt⟩
    · simp [errOf, runOp, reportStakeWithdrawnRun, hnone]
    · simp [errOf, runOp, reportStakeWithdrawnRun, hl, hrt]
  · intro acc t0 hl hrt hlt
    simp [errOf, runOp, reportStakeWithdrawnRun, hl, hrt, hlt]
  · intro acc t0 hl hrt hge hlock
    have hnotlt : ¬ s.now < t0 + withdrawalLockPeriod := Nat.not_lt.mpr hge
    constructor
    · simp [okRun, runOp, reportStakeWithdrawnRun, hl, hrt, hnotlt, hlock]
    · have happ : applyOp (.reportStakeWithdrawn .stakingContract r a) s = setStaker s r { acc with staked := acc.staked - (a : Int), locked := acc.locked - (a : Int), requestTime := if acc.locked - (a : Int) = 0 then none else some t0 } := by
        simp [applyOp, runOp, reportStakeWithdrawnRun, hl, hrt, hnotlt, hlock]
      rw [happ]
      exact ⟨_, alookup_aset_self _ _ _, rfl, rfl⟩

theorem confirm_withdrawal_lock_witness :
    errOf (.reportStakeWithdrawn .stakingContract 1 100) egState = some .WithdrawalLockNotExpired
    ∧ errOf (.reportStakeWithdrawn .stakingContract 3 5) egState = some .NoPendingWithdrawal
    ∧ (okRun (.reportStakeWithdrawn .stakingContract 1 100) egLateState = true ∧
        ∃ acc', alookup (applyOp (.reportStakeWithdrawn .stakingContract 1 100) egLateState).stakers 1 = some acc' ∧
          acc'.staked = 1200 - (100 : Int) ∧ acc'.locked = 100 - (100 : Int)) :=
  ⟨(confirm_withdrawal_lock egState 1 100).2.1 ⟨1200, 100, some 1000, 7⟩ 1000 rfl rfl (by decide),
   (confirm_withdrawal_lock egState 3 5).1 (Or.inl rfl),
   (confirm_withdrawal_lock egLateState 1 100).2.2 ⟨1200, 100, some 1000, 7⟩ 1000 rfl rfl
     (by decide) (by decide)⟩

/-- C6: `slash` reduces the reporter's staked amount by the minimum of the
requested amount and the available stake and emits the slash event even
when the clamped amount differs from the requested one; moreover every
operation preserves the invariant that staked amounts are nonnegative and
locked amounts never exceed staked amounts. -/
theorem slash_clamps_and_stake_invariant :
    (∀ (s : State) (r : AccountId) (a : Nat) (acc : StakeAccount),
        alookup s.stakers r = some acc →
        alookup (applyOp (.reportSlash .governanceContract r a) s).stakers r = some { acc with staked := acc.staked - min (a : Int) (acc.staked - acc.locked) } ∧
        runEvents (.reportSlash .governanceContract r a) s = [.SlashReported r (min (a : Int) (acc.staked - acc.locked))])
    ∧ ∀ (op : Op) (s : State), StakeInv s → StakeInv (applyOp op s) := by
  constructor
  · intro s r a acc hl
    constructor
    · have happ : applyOp (.reportSlash .governanceContract r a) s = { setStaker s r { acc with staked := acc.staked - min (a : Int) (acc.staked - acc.locked) } with slashPool := s.slashPool + (min (a : Int) (acc.staked - acc.locked)).toNat } := by
        simp [applyOp, runOp, reportSlashRun, hl, slashStakeAccount, setStaker]
      rw [happ]
      exact alookup_aset_self _ _ _
    · simp [runEvents, runOp, reportSlashRun, hl, slashStakeAccount]
  · exact fun op s h => stakeInv_applyOp op s h

theorem slash_clamps_witness :
    (alookup (applyOp (.reportSlash .governanceContract 1 2000) egState).stakers 1 = some { staked := 1200 - min (2000 : Int) (1200 - 100), locked := 100, requestTime := some 1000, addr := 7 } ∧
      runEvents (.reportSlash .governanceContract 1 2000) egState = [.SlashReported 1 (min (2000 : Int) (1200 - 100))])
    ∧ StakeInv (applyOp .onInit egState) :=
  ⟨slash_clamps_and_stake_invariant.1 egState 1 2000 ⟨1200, 100, some 1000, 7⟩ rfl,
   slash_clamps_and_stake_invariant.2 .onInit egState (by decide)⟩

/-- C9: `vote_on_multiple_disputes` is best-effort, not transactional —
processing a list splits into processing the prefix, then the middle entry
as one atomic vote which on failure changes nothing but does not roll back
the prefix, then the suffix; the batch call itself never fails, and each
individual vote is atomic. -/
theorem batch_vote_best_effort (s : State) (voter : AccountId)
    (xs ys : List (DisputeKey × Option Bool)) (e : DisputeKey × Option Bool) :
    applyOp (.voteOnMultipleDisputes (.signed voter) (xs ++ e :: ys)) s =
        applyOp (.voteOnMultipleDisputes (.signed voter) ys)
          (applyOp (.vote (.signed voter) e.1 e.2)
            (applyOp (.voteOnMultipleDisputes (.signed voter) xs) s))
    ∧ okRun (.voteOnMultipleDisputes (.signed voter) (xs ++ e :: ys)) s = true
    ∧ (∀ k c err, errOf (.vote (.signed voter) k c) s = some err →
        applyOp (.vote (.signed voter) k c) s = s) := by
  refine ⟨?_, ?_, ?_⟩
  · rw [applyOp_batch, applyOp_batch, applyOp_vote_eq_voteStep, applyOp_batch,
        voteManyGo_fst, voteManyGo_fst, voteManyGo_fst, List.foldl_append, List.foldl_cons]
  · simp [okRun, runOp, voteOnMultipleDisputesRun]
  · intro k c err herr
    exact applyOp_of_err _ _ _ herr

theorem batch_vote_best_effort_witness :
    applyOp (.voteOnMultipleDisputes (.signed 5)
        [((9, 90000), some true), ((1, 2), some false), ((9, 90000), none)]) egVoteState =
      applyOp (.voteOnMultipleDisputes (.signed 5) [((9, 90000), none)])
        (applyOp (.vote (.signed 5) (1, 2) (some false))
          (applyOp (.voteOnMultipleDisputes (.signed 5) [((9, 90000), some true)]) egVoteState))
    ∧ okRun (.voteOnMultipleDisputes (.signed 5)
        [((9, 90000), some true), ((1, 2), some false), ((9, 90000), none)]) egVoteState = true
    ∧ applyOp (.vote (.signed 5) (1, 2) (some false)) egVoteState = egVoteState :=
  ⟨(batch_vote_best_effort egVoteState 5 [((9, 90000), some true)] [((9, 90000), none)]
      ((1, 2), some false)).1,
   (batch_vote_best_effort egVoteState 5 [((9, 90000), some true)] [((9, 90000), none)]
      ((1, 2), some false)).2.1,
   (batch_vote_best_effort egVoteState 5 [((9, 90000), some true)] [((9, 90000), none)]
      ((1, 2), some false)).2.2 (1, 2) (some false) .DisputeNotOpen rfl⟩

/-- C5: rewards are paid exactly once per timestamp — an already claimed
timestamp makes a fresh feed claim or one-time tip claim of it fail with
`AlreadyClaimed` and leave the state unchanged, a claim call containing an
already claimed timestamp never succeeds, and a successful claim call
marks every claimed timestamp so any second claim is rejected. -/
theorem claims_exact_once (s : State) (who : AccountId) (params : FeedParams)
    (t : Timestamp) (tss : List Timestamp) (hfeed : alookup s.feeds params ≠ none) :
    (claimedFlag s params.queryId t = true →
        errOf (.claimTipFromFeed (.signed who) params params.queryId [t]) s = some .AlreadyClaimed ∧
        applyOp (.claimTipFromFeed (.signed who) params params.queryId [t]) s = s)
    ∧ (claimedFlag s params.queryId t = true →
        errOf (.claimOnetimeTip (.signed who) params.queryId [t]) s = some .AlreadyClaimed ∧
        applyOp (.claimOnetimeTip (.signed who) params.queryId [t]) s = s)
    ∧ (claimedFlag s params.queryId t = true → t ∈ tss →
        okRun (.claimTipFromFeed (.signed who) params params.queryId tss) s = false ∧
        okRun (.claimOnetimeTip (.signed who) params.queryId tss) s = false)
    ∧ (okRun (.claimTipFromFeed (.signed who) params params.queryId tss) s = true → t ∈ tss →
        claimedFlag (applyOp (.claimTipFromFeed (.signed who) params params.queryId tss) s) params.queryId t = true)
    ∧ (okRun (.claimOnetimeTip (.signed who) params.queryId tss) s = true → t ∈ tss →
        claimedFlag (applyOp (.claimOnetimeTip (.signed who) params.queryId tss) s) params.queryId t = true) := by
  refine ⟨?_, ?_, ?_, ?_, ?_⟩
  · intro hc
    have herr : errOf (.claimTipFromFeed (.signed who) params params.queryId [t]) s = some .AlreadyClaimed := by
      cases hfd : alookup s.feeds params with
      | none => exact absurd hfd hfeed
      | some escrow =>
        simp [errOf, runOp, claimTipFromFeedRun, hfd, feedClaimList, feedClaimStep, hc]
    exact ⟨herr, applyOp_of_err _ _ _ herr⟩
  · intro hc
    have herr : errOf (.claimOnetimeTip (.signed who) params.queryId [t]) s = some .AlreadyClaimed := by
      simp [errOf, runOp, claimOnetimeTipRun, onetimeClaimList, onetimeClaimStep, hc]
    exact ⟨herr, applyOp_of_err _ _ _ herr⟩
  · intro hc ht
    constructor
    · obtain ⟨e, herr⟩ := feedClaimList_fails_when_claimed params tss s t ht hc
      cases hfd : alookup s.feeds params with
      | none => exact absurd hfd hfeed
      | some escrow => simp [okRun, runOp, claimTipFromFeedRun, hfd, herr]
    · obtain ⟨e, herr⟩ := onetimeClaimList_fails_when_claimed params.queryId tss s t ht hc
      simp [okRun, runOp, claimOnetimeTipRun, herr]
  · intro hok ht
    unfold okRun at hok
    cases hr : runOp (.claimTipFromFeed (.signed who) params params.queryId tss) s with
    | error e2 =>
      rw [hr] at hok
      simp at hok
    | ok p =>
      obtain ⟨s1, ev⟩ := p
      have happ : applyOp (.claimTipFromFeed (.signed who) params params.queryId tss) s = s1 := by
        unfold applyOp
        rw [hr]
      rw [happ]
      simp only [runOp, claimTipFromFeedRun] at hr
      split at hr
      · exact Except.noConfusion hr
      · split at hr
        · exact Except.noConfusion hr
        · split at hr
          · exact Except.noConfusion hr
          · rename_i s2 hlist
            simp only [Except.ok.injEq, Prod.mk.injEq] at hr
            obtain ⟨h1, h2⟩ := hr
            subst h1
            exact (feedClaimList_claims params tss s s2 hlist).2 t ht
  · intro hok ht
    unfold okRun at hok
    cases hr : runOp (.claimOnetimeTip (.signed who) params.queryId tss) s with
    | error e2 =>
      rw [hr] at hok
      simp at hok
    | ok p =>
      obtain ⟨s1, ev⟩ := p
      have happ : applyOp (.claimOnetimeTip (.signed who) params.queryId tss) s = s1 := by
        unfold applyOp
        rw [hr]
      rw [happ]
      simp only [runOp, claimOnetimeTipRun] at hr
      split at hr
      · exact Except.noConfusion hr
      · rename_i s2 hlist
        simp only [Except.ok.injEq, Prod.mk.injEq] at hr
        obtain ⟨h1, h2⟩ := hr
        subst h1
        exact (onetimeClaimList_claims params.queryId tss s s2 hlist).2 t ht

theorem claims_exact_once_witness :
    (errOf (.claimTipFromFeed (.signed 2) egParams egParams.queryId [90000]) egClaimState = some .AlreadyClaimed
      ∧ applyOp (.claimTipFromFeed (.signed 2) egParams egParams.queryId [90000]) egClaimState = egClaimState)
    ∧ (errOf (.claimOnetimeTip (.signed 2) egParams.queryId [90000]) egClaimState = some .AlreadyClaimed
      ∧ applyOp (.claimOnetimeTip (.signed 2) egParams.queryId [90000]) egClaimState = egClaimState) :=
  ⟨(claims_exact_once egClaimState 2 egParams 90000 [90000] (by decide)).1 rfl,
   (claims_exact_once egClaimState 2 egParams 90000 [90000] (by decide)).2.1 rfl⟩

/-- C7: a second vote by the same voter on the same dispute replaces the
first — exactly one tally entry for the (dispute, voter) pair remains, it
holds the latest choice, the stored aggregate counters equal the counters
recomputed from the entries (so the voter is counted exactly once), and
the votes and tallies after the two calls equal those after a single vote
with the latest choice. -/
theorem vote_upsert_replaces (s : State) (voter : AccountId) (k : DisputeKey)
    (c1 c2 : Option Bool) (hopen : statusAt s k = some .Opened)
    (hcount : countKey s.votes (k, voter) ≤ 1)
    (htally : tallyOf s k = derivedTally s.votes k) :
    countKey (doubleVote s voter k c1 c2).votes (k, voter) = 1
    ∧ alookup (doubleVote s voter k c1 c2).votes (k, voter) = some c2
    ∧ tallyOf (doubleVote s voter k c1 c2) k = derivedTally (doubleVote s voter k c1 c2).votes k
    ∧ (doubleVote s voter k c1 c2).votes = (applyOp (.vote (.signed voter) k c2) s).votes
    ∧ (doubleVote s voter k c1 c2).tallies = (applyOp (.vote (.signed voter) k c2) s).tallies := by
  have h1 : applyOp (.vote (.signed voter) k c1) s = voteResultState s voter k c1 :=
    applyOp_vote s voter k c1 hopen
  have hopen1 : statusAt (voteResultState s voter k c1) k = some .Opened := hopen
  have h2 : doubleVote s voter k c1 c2 = voteResultState (voteResultState s voter k c1) voter k c2 := by
    unfold doubleVote
    rw [h1, applyOp_vote _ voter k c2 hopen1]
  have hsingle : applyOp (.vote (.signed voter) k c2) s = voteResultState s voter k c2 :=
    applyOp_vote s voter k c2 hopen
  have hv : (voteResultState (voteResultState s voter k c1) voter k c2).votes = aset s.votes (k, voter) c2 := by
    show aset (aset s.votes (k, voter) c1) (k, voter) c2 = _
    exact aset_aset_self _ _ _ _
  have e1 : tallyOf (voteResultState s voter k c1) k = tallyInc (tallyDecOpt (tallyOf s k) (alookup s.votes (k, voter))) c1 := by
    show (alookup (aset s.tallies k _) k).getD _ = _
    rw [alookup_aset_self]
    rfl
  have e2 : alookup (voteResultState s voter k c1).votes (k, voter) = some c1 :=
    alookup_aset_self _ _ _
  have hT : (voteResultState (voteResultState s voter k c1) voter k c2).tallies = aset s.tallies k (tallyInc (tallyDecOpt (tallyOf s k) (alookup s.votes (k, voter))) c2) := by
    show aset (aset s.tallies k _) k _ = _
    rw [aset_aset_self, e1, e2]
    simp only [tallyDecOpt]
    rw [tallyDec_tallyInc_same]
  refine ⟨?_, ?_, ?_, ?_, ?_⟩
  · rw [h2, hv]
    exact countKey_aset _ _ _ hcount
  · rw [h2, hv]
    exact alookup_aset_self _ _ _
  · rw [h2]
    show (alookup (voteResultState (voteResultState s voter k c1) voter k c2).tallies k).getD ⟨0, 0, 0⟩ = _
    rw [hT, hv, alookup_aset_self]
    rw [Option.getD_some]
    rw [derivedTally_aset s.votes (k, voter) c2 k hcount rfl, ← htally]
  · rw [h2, hv, hsingle]
    rfl
  · rw [h2, hT, hsingle]
    rfl

theorem vote_upsert_witness :
    countKey (doubleVote egVoteState 5 (9, 90000) (some true) (some false)).votes ((9, 90000), 5) = 1
    ∧ alookup (doubleVote egVoteState 5 (9, 90000) (some true) (some false)).votes ((9, 90000), 5) = some (some false)
    ∧ tallyOf (doubleVote egVoteState 5 (9, 90000) (some true) (some false)) (9, 90000) = derivedTally (doubleVote egVoteState 5 (9, 90000) (some true) (some false)).votes (9, 90000)
    ∧ (doubleVote egVoteState 5 (9, 90000) (some true) (some false)).votes = (applyOp (.vote (.signed 5) (9, 90000) (some false)) egVoteState).votes
    ∧ (doubleVote egVoteState 5 (9, 90000) (some true) (some false)).tallies = (applyOp (.vote (.signed 5) (9, 90000) (some false)) egVoteState).tallies :=
  vote_upsert_replaces egVoteState 5 (9, 90000) (some true) (some false) rfl (by decide) rfl

/-- C1: repeated `begin_dispute` calls on one (query id, timestamp) pair
create at most one open dispute — a call while a round is open fails, a
successful first call opens round 1 at the base fee, and a successful
later call requires the prior round to have been tallied against the
reporter, increments the round number by one and sets the fee to the
doubled previous fee capped at the configured maximum, which never
decreases the fee. -/
theorem begin_dispute_rounds (s : State) (who : AccountId) (q : QueryId) (t : Timestamp)
    (hcap : ∀ p ∈ s.disputes, p.2.fee ≤ s.maxDisputeFee) :
    (∀ r d, reportAt s q t = some r → disputeAt s (q, t) = some d → d.status = .Opened →
        errOf (.beginDispute (.signed who) q t) s = some .DisputeAlreadyOpen)
    ∧ (disputeAt s (q, t) = none → okRun (.beginDispute (.signed who) q t) s = true →
        ∃ d', disputeAt (applyOp (.beginDispute (.signed who) q t) s) (q, t) = some d' ∧
          d'.round = 1 ∧ d'.fee = s.baseDisputeFee ∧ d'.status = .Opened)
    ∧ (∀ d, disputeAt s (q, t) = some d → okRun (.beginDispute (.signed who) q t) s = true →
        (∃ tt, d.status = .Tallied .Passed tt) ∧
        ∃ d', disputeAt (applyOp (.beginDispute (.signed who) q t) s) (q, t) = some d' ∧
          d'.round = d.round + 1 ∧ d'.fee = min (2 * d.fee) s.maxDisputeFee ∧
          d.fee ≤ d'.fee ∧ d'.status = .Opened) := by
  refine ⟨?_, ?_, ?_⟩
  · intro r d hrep hd hst
    simp [errOf, runOp, beginDisputeRun, hrep, hd, hst]
  · intro hnone hok
    unfold okRun at hok
    cases hr : runOp (.beginDispute (.signed who) q t) s with
    | error e =>
      rw [hr] at hok
      simp at hok
    | ok p =>
      obtain ⟨s1, ev⟩ := p
      have happ : applyOp (.beginDispute (.signed who) q t) s = s1 := by
        unfold applyOp
        rw [hr]
      rw [happ]
      simp only [runOp, beginDisputeRun, hnone] at hr
      split at hr
      · exact Except.noConfusion hr
      · rename_i rep hrep
        split at hr
        · exact Except.noConfusion hr
        · split at hr
          · exact Except.noConfusion hr
          · rename_i s9 hdeb
            simp only [Except.ok.injEq, Prod.mk.injEq] at hr
            obtain ⟨h1, h2⟩ := hr
            subst h1
            exact ⟨⟨1, s.baseDisputeFee, .Opened, [(who, s.baseDisputeFee)], rep.reporter⟩,
              alookup_aset_self _ _ _, rfl, rfl, rfl⟩
  · intro d hd hok
    unfold okRun at hok
    cases hr : runOp (.beginDispute (.signed who) q t) s with
    | error e =>
      rw [hr] at hok
      simp at hok
    | ok p =>
      obtain ⟨s1, ev⟩ := p
      have happ : applyOp (.beginDispute (.signed who) q t) s = s1 := by
        unfold applyOp
        rw [hr]
      rw [happ]
      simp only [runOp, beginDisputeRun, hd] at hr
      split at hr
      · exact Except.noConfusion hr
      · rename_i rep hrep
        split at hr
        · exact Except.noConfusion hr
        · exact Except.noConfusion hr
        · rename_i outcome tallyTime hst
          split at hr
          · rename_i hout
            split at hr
            · exact Except.noConfusion hr
            · split at hr
              · exact Except.noConfusion hr
              · rename_i s9 hdeb
                simp only [Except.ok.injEq, Prod.mk.injEq] at hr
                obtain ⟨h1, h2⟩ := hr
                subst h1
                subst hout
                have hfee : d.fee ≤ s.maxDisputeFee := hcap ((q, t), d) (alookup_mem _ _ _ hd)
                refine ⟨⟨tallyTime, hst⟩,
                  ⟨d.round + 1, min (2 * d.fee) s.maxDisputeFee, .Opened,
                    (who, min (2 * d.fee) s.maxDisputeFee) :: d.initiators, d.reporter⟩,
                  alookup_aset_self _ _ _, rfl, rfl, ?_, rfl⟩
                dsimp only
                omega
          · exact Except.noConfusion hr

theorem begin_dispute_rounds_witness :
    (∃ tt, (⟨1, 10, .Tallied .Passed 95000, [(2, 10)], 1⟩ : Dispute).status = .Tallied .Passed tt)
    ∧ ∃ d', disputeAt (applyOp (.beginDispute (.signed 2) 9 90000) egDispState) (9, 90000) = some d' ∧
        d'.round = 2 ∧ d'.fee = min 20 100 ∧ 10 ≤ d'.fee ∧ d'.status = .Opened :=
  (begin_dispute_rounds egDispState 2 9 90000 (by decide)).2.2
    ⟨1, 10, .Tallied .Passed 95000, [(2, 10)], 1⟩ rfl rfl

/-- C3 (amended): `begin_dispute` fails with `ReportNotFound` whenever no
report exists at the pair, fails with `DisputeWindowExpired` whenever the
12-hour contest window has elapsed (from submission for a first dispute,
from the previous round's tally for a re-dispute), and opens the dispute
when a report exists, the window has not elapsed, no round is already
open or closed for the pair, and the initiator's balance covers the round
fee. -/
theorem begin_dispute_window_errors (s : State) (who : AccountId) (q : QueryId) (t : Timestamp) :
    (reportAt s q t = none → errOf (.beginDispute (.signed who) q t) s = some .ReportNotFound)
    ∧ (∀ r, reportAt s q t = some r → disputeAt s (q, t) = none → disputePeriod < s.now - t →
        errOf (.beginDispute (.signed who) q t) s = some .DisputeWindowExpired)
    ∧ (∀ r d outcome tt, reportAt s q t = some r → disputeAt s (q, t) = some d →
        d.status = .Tallied outcome tt → outcome = .Passed → disputePeriod < s.now - tt →
        errOf (.beginDispute (.signed who) q t) s = some .DisputeWindowExpired)
    ∧ (∀ r, reportAt s q t = some r → disputeAt s (q, t) = none → s.now - t ≤ disputePeriod →
        s.baseDisputeFee ≤ balanceOf s who →
        okRun (.beginDispute (.signed who) q t) s = true)
    ∧ (∀ r d tt, reportAt s q t = some r → disputeAt s (q, t) = some d →
        d.status = .Tallied .Passed tt → s.now - tt ≤ disputePeriod →
        min (2 * d.fee) s.maxDisputeFee ≤ balanceOf s who →
        okRun (.beginDispute (.signed who) q t) s = true) := by
  refine ⟨?_, ?_, ?_, ?_, ?_⟩
  · intro hrep
    simp [errOf, runOp, beginDisputeRun, hrep]
  · intro r hrep hd hlt
    simp [errOf, runOp, beginDisputeRun, hrep, hd, hlt]
  · intro r d outcome tt hrep hd hst hout hlt
    subst hout
    simp [errOf, runOp, beginDisputeRun, hrep, hd, hst, hlt]
  · intro r hrep hd hle hbal
    have hnlt : ¬ disputePeriod < s.now - t := Nat.not_lt.mpr hle
    simp [okRun, runOp, beginDisputeRun, hrep, hd, hnlt, debit, hbal]
  · intro r d tt hrep hd hst hle hbal
    have hnlt : ¬ disputePeriod < s.now - tt := Nat.not_lt.mpr hle
    simp [okRun, runOp, beginDisputeRun, hrep, hd, hst, hnlt, debit, hbal]

theorem begin_dispute_balance_cex :
    reportAt egNoBalanceState 9 90000 ≠ none
    ∧ egNoBalanceState.now - 90000 ≤ disputePeriod
    ∧ disputeAt egNoBalanceState (9, 90000) = none
    ∧ errOf (.beginDispute (.signed 2) 9 90000) egNoBalanceState = some .InsufficientBalance := by
  refine ⟨by decide, by decide, rfl, rfl⟩

theorem begin_dispute_window_errors_witness :
    errOf (.beginDispute (.signed 2) 7 123) egState = some .ReportNotFound
    ∧ errOf (.beginDispute (.signed 2) 9 90000) egLateState = some .DisputeWindowExpired
    ∧ okRun (.beginDispute (.signed 2) 9 90000) egState = true :=
  ⟨(begin_dispute_window_errors egState 2 7 123).1 rfl,
   (begin_dispute_window_errors egLateState 2 9 90000).2.1 ⟨90000, [1, 2], 1, 0, false⟩ rfl rfl
     (by decide),
   (begin_dispute_window_errors egState 2 9 90000).2.2.2.1 ⟨90000, [1, 2], 1, 0, false⟩ rfl rfl
     (by decide) (by decide)⟩

end Tellor